import Mathlib

/-!
Verification of the schema-to-type-declaration compiler of the
google-api-typings-generator repository.

The TypeScript source is shallowly embedded: JavaScript strings become
`String` / `List Char`, records (JS objects) become association lists
`List (String × _)` whose list order is the JS insertion order, thrown
exceptions become an explicit error component, and the mutable
`TypescriptTextWriter` / `IndentedTextWriter` pair becomes explicit state
passing over `WSt` (output buffer, indent level, and the `seenSchemaRefs`
set of the `App` class).  Recursive tree walkers take an explicit fuel
argument; `GErr.outOfFuel` marks fuel exhaustion and never corresponds to
a behaviour of the source, while `GErr.fail` models a thrown `Error`.
-/

/-! ## JavaScript string ordering (used by `sort((a, b) => a > b ? 1 : -1)`) -/

/-- Lexicographic comparison of character lists, mirroring the JavaScript
`<` / `>` relational operators on strings. -/
def charListLt : List Char → List Char → Bool
  | [], [] => false
  | [], _ :: _ => true
  | _ :: _, [] => false
  | a :: as, b :: bs => if a < b then true else if b < a then false else charListLt as bs

/-- JavaScript string `a < b`. -/
def strLtJs (a b : String) : Bool := charListLt a.data b.data

/-- Model of `keys.sort((a, b) => a > b ? 1 : -1)`: `a` is placed before `b`
exactly when the comparator returns `-1`, i.e. when `¬ (a > b)`.  Any
comparison sort realises this placement; insertion sort is used here. -/
def sortKeysJs (keys : List String) : List String :=
  keys.insertionSort (fun a b => strLtJs b a = false)

/-! ## `formatPropertyName` -/

/-- Source `formatPropertyName`: quote the name iff it contains `.`, `-` or `@`. -/
def formatPropertyName (name : String) : String :=
  if name.data.contains '.' || name.data.contains '-' || name.data.contains '@' then
    "\"" ++ name ++ "\""
  else
    name

/-! ## Writer state and primitive actions -/

/-- Error taxonomy: `fail` models a thrown JavaScript `Error`; `outOfFuel`
is an artefact of the fuel-based embedding of recursion. -/
inductive GErr where
  | outOfFuel
  | fail (msg : String)
deriving DecidableEq, Repr

/-- Combined mutable state of one generation run: the output buffer and
indent level of the `IndentedTextWriter`, and the `App.seenSchemaRefs` set
(a JS `Set<string>`, modelled as a duplicate-free list). -/
structure WSt where
  out : String
  indent : Nat
  seen : List String
deriving DecidableEq, Repr

/-- A writer action: runs on the state and either succeeds or stops with an
error, as a thrown exception would.  The state at the moment of the error is
kept, because the JS exception does not roll back mutations. -/
def Act := WSt → WSt × Option GErr

/-- Sequencing of actions: a thrown error skips everything after it. -/
def aseq (a b : Act) : Act := fun s =>
  match a s with
  | (s1, none) => b s1
  | r => r

/-- The action that does nothing. -/
def skipA : Act := fun s => (s, none)

/-- The action that throws. -/
def errA (e : GErr) : Act := fun s => (s, some e)

/-- `IndentedTextWriter.newLine` (constructor default). -/
def newLineStr : String := "\n"

/-- `IndentedTextWriter.tabString` (constructor default). -/
def tabString : String := "    "

/-- `Array(indent + 1).join(tabString)`: the tab string repeated `indent` times. -/
def tabs : Nat → String
  | 0 => ""
  | n + 1 => tabString ++ tabs n

/-- `IndentedTextWriter.write`. -/
def writeA (chunk : String) : Act := fun s => ({ s with out := s.out ++ chunk }, none)

/-- `IndentedTextWriter.startIndentedLine`. -/
def startIndentedLineA (chunk : String) : Act := fun s =>
  writeA (tabs s.indent ++ chunk) s

/-- `IndentedTextWriter.writeLine`. -/
def writeLineA (chunk : String) : Act :=
  startIndentedLineA (chunk ++ newLineStr)

/-- `this.writer.indent++`. -/
def indentIncA : Act := fun s => ({ s with indent := s.indent + 1 }, none)

/-- `this.writer.indent--`. -/
def indentDecA : Act := fun s => ({ s with indent := s.indent - 1 }, none)

/-- `TypescriptTextWriter.braces`.  On an exception inside the context the
trailing `indent--` and closing line are skipped, as in the source. -/
def bracesA (text : String) (context : Act) : Act :=
  aseq (writeLineA (text ++ " \x7b"))
    (aseq indentIncA (aseq context (aseq indentDecA (writeLineA "\x7d"))))

/-- `TypescriptTextWriter.referenceTypes`. -/
def referenceTypesA (type : String) : Act :=
  writeLineA ("/// <reference types=\"" ++ type ++ "\" />")

/-- `TypescriptTextWriter.namespace`. -/
def namespaceA (name : String) (context : Act) : Act :=
  bracesA ("namespace " ++ name) context

/-- `TypescriptTextWriter.declareNamespace`. -/
def declareNamespaceA (name : String) (context : Act) : Act :=
  aseq (writeLineA "") (bracesA ("declare namespace " ++ name) context)

/-- `TypescriptTextWriter.interface`. -/
def interfaceA (name : String) (context : Act) : Act :=
  bracesA ("interface " ++ name) context

/-- `TypescriptTextWriter.endLine`. -/
def endLineA (chunk : String) : Act :=
  aseq (writeA chunk) (writeA newLineStr)

/-- `TypescriptTextWriter.anonymysType` (source spelling kept). -/
def anonymysTypeA (context : Act) : Act :=
  aseq (endLineA "\x7b")
    (aseq indentIncA (aseq context (aseq indentDecA (startIndentedLineA "\x7d"))))

/-- `TypescriptTextWriter.beginNewLine`. -/
def beginNewLineA (chunk : String) : Act :=
  aseq (writeA newLineStr) (startIndentedLineA chunk)

/-- `TypescriptTextWriter.beginLine`. -/
def beginLineA (chunk : String) : Act :=
  startIndentedLineA chunk

/-- `TypescriptTextWriter.scope`. -/
def scopeA (context : Act) (startTag endTag : String) : Act :=
  aseq (writeA startTag)
    (aseq indentIncA
      (aseq context (aseq indentDecA (aseq (writeA newLineStr) (startIndentedLineA endTag)))))

/-- A rendered type: either an inline type expression (string) or a deferred
block writer (callback), mirroring `string | TypescriptWriterCallback`. -/
abbrev StrOrCb := Sum String Act

/-- `TypescriptTextWriter.write` on a `string | TypescriptWriterCallback`. -/
def writeSV : StrOrCb → Act
  | .inl s => writeA s
  | .inr cb => cb

/-- `TypescriptTextWriter.property`. -/
def propertyA (name : String) (type : StrOrCb) (required : Bool) : Act :=
  match type with
  | .inr cb =>
      aseq (startIndentedLineA (formatPropertyName name ++ (if required then "" else "?") ++ ": "))
        (aseq cb (endLineA ";"))
  | .inl t =>
      writeLineA (formatPropertyName name ++ (if required then "" else "?") ++ ": " ++ t ++ ";")

/-! ## Comment formatting pipeline (`TypescriptTextWriter.comment`) -/

/-- The 24 irregular space / line-separator code points of the source table
`irregylarSpaces` (source spelling kept), in source order. -/
def irregylarSpaces : List Char :=
  ['\u000B', '\u000C', '\u00A0', '\u0085', '\u1680', '\u180E', '\uFEFF',
   '\u2000', '\u2001', '\u2002', '\u2003', '\u2004', '\u2005', '\u2006',
   '\u2007', '\u2008', '\u2009', '\u200A', '\u200B', '\u2028', '\u2029',
   '\u202F', '\u205F', '\u3000']

/-- Code points removed by JavaScript `String.prototype.trim` (the Unicode
White_Space set plus BOM). -/
def jsWhitespace : List Char :=
  ['\t', '\n', '\u000B', '\u000C', '\r', ' ', '\u00A0', '\u0085', '\u1680',
   '\u2000', '\u2001', '\u2002', '\u2003', '\u2004', '\u2005', '\u2006',
   '\u2007', '\u2008', '\u2009', '\u200A', '\u2028', '\u2029', '\u202F',
   '\u205F', '\u3000', '\uFEFF']

/-- JavaScript `String.prototype.trim`. -/
def jsTrim (l : List Char) : List Char :=
  ((l.dropWhile (jsWhitespace.contains ·)).reverse.dropWhile (jsWhitespace.contains ·)).reverse

/-- Splitting on the line-break regex `/\r\n|\r|\n|\u000a\u000d|\u000a|\u000d|␊/g`.
Ordered alternation makes the effective separators `\r\n`, `\r`, `\n` and `␊`. -/
def splitLinesJs : List Char → List (List Char)
  | [] => [[]]
  | '\r' :: '\n' :: rest => [] :: splitLinesJs rest
  | '\r' :: rest => [] :: splitLinesJs rest
  | '\n' :: rest => [] :: splitLinesJs rest
  | '\u240A' :: rest => [] :: splitLinesJs rest
  | c :: rest =>
    match splitLinesJs rest with
    | [] => [[c]]
    | h :: t => (c :: h) :: t

/-- JavaScript `line.split(' ')` (single-space separator, empty pieces kept). -/
def splitSp : List Char → List (List Char)
  | [] => [[]]
  | c :: rest =>
    if c = ' ' then [] :: splitSp rest
    else
      match splitSp rest with
      | [] => [[c]]
      | h :: t => (c :: h) :: t

/-- The greedy word-packing loop of `comment` for one overlong line:
state is the accumulated lines and the line under construction. -/
def wrapGo : List (List Char) → List (List Char) → List Char → List (List Char)
  | [], acc, cur => acc ++ [cur]
  | w :: ws, acc, cur =>
    if 150 < cur.length + w.length then wrapGo ws (acc ++ [cur]) w
    else if cur.isEmpty then wrapGo ws acc w
    else wrapGo ws acc (cur ++ ' ' :: w)

/-- Wrapping of one source line longer than `maxLine = 150`. -/
def wrapLine (line : List Char) : List (List Char) :=
  wrapGo (splitSp line) [] []

/-- `x.replace(/\*/g, "&#42;")`. -/
def starRepl : List Char → List Char
  | [] => []
  | c :: rest =>
    if c = '*' then '&' :: '#' :: '4' :: '2' :: ';' :: starRepl rest
    else c :: starRepl rest

/-- The lines of `text.trim().split(<line-break regex>)`. -/
def rawLinesOf (text : String) : List (List Char) :=
  splitLinesJs (jsTrim text.data)

/-- The lines after the `line.length > maxLine` word-wrapping pass. -/
def wrappedLinesOf (text : String) : List (List Char) :=
  (rawLinesOf text).flatMap (fun line => if 150 < line.length then wrapLine line else [line])

/-- The pure part of `TypescriptTextWriter.comment`: trim, split into lines,
wrap overlong lines, escape `*` and trim each line, then replace each
irregular space by an ordinary space (one global replace per code point). -/
def commentLinesL (text : String) : List (List Char) :=
  irregylarSpaces.foldl
    (fun ls sp => ls.map (fun line => line.map (fun c => if c = sp then ' ' else c)))
    ((wrappedLinesOf text).map (fun x => jsTrim (starRepl x)))

/-- Observation function for the wrapping property: the (non-empty) words
of a line, i.e. the pieces of `line.split(' ')` that are not empty. -/
def wordsOf (l : List Char) : List (List Char) :=
  (splitSp l).filter (fun w => w.isEmpty = false)

/-- Emission loop for a multi-line comment body (`lines.forEach((line, i) => ...)`). -/
def commentMultiGo (avoid : Bool) (total : Nat) : List (List Char) → Nat → Act
  | [], _ => skipA
  | line :: rest, i =>
    let w := if avoid then (if i = total - 1 then writeLineA else beginLineA) else writeLineA
    aseq (w (if line.isEmpty then " *" else " * " ++ String.mk line))
      (commentMultiGo avoid total rest (i + 1))

/-- `TypescriptTextWriter.comment`. -/
def commentA (text : String) (avoidTrailingNewline : Bool) : Act :=
  if text = "" then skipA
  else
    match commentLinesL text with
    | [] => skipA
    | [l] =>
        (if avoidTrailingNewline then beginLineA else writeLineA) ("/** " ++ String.mk l ++ " */")
    | ls =>
        aseq (writeLineA "/**")
          (aseq (commentMultiGo avoidTrailingNewline ls.length ls 0) (writeLineA " */"))

/-! ## Discovery document data model -/

/-- `gapi.client.discovery.JsonSchema`, restricted to the fields the
generator reads.  `ref` models the JSON `$ref` field. -/
inductive JsonSchema where
  | mk (type : Option String) (items : Option JsonSchema)
       (properties : Option (List (String × JsonSchema)))
       (additionalProperties : Option JsonSchema)
       (ref : Option String) (required : Option Bool)
       (repeated : Option Bool) (description : Option String)
       (id : Option String)

def JsonSchema.type : JsonSchema → Option String
  | .mk t _ _ _ _ _ _ _ _ => t

def JsonSchema.items : JsonSchema → Option JsonSchema
  | .mk _ i _ _ _ _ _ _ _ => i

def JsonSchema.properties : JsonSchema → Option (List (String × JsonSchema))
  | .mk _ _ p _ _ _ _ _ _ => p

def JsonSchema.additionalProperties : JsonSchema → Option JsonSchema
  | .mk _ _ _ a _ _ _ _ _ => a

def JsonSchema.ref : JsonSchema → Option String
  | .mk _ _ _ _ r _ _ _ _ => r

def JsonSchema.required : JsonSchema → Option Bool
  | .mk _ _ _ _ _ r _ _ _ => r

def JsonSchema.repeated : JsonSchema → Option Bool
  | .mk _ _ _ _ _ _ r _ _ => r

def JsonSchema.description : JsonSchema → Option String
  | .mk _ _ _ _ _ _ _ d _ => d

def JsonSchema.id : JsonSchema → Option String
  | .mk _ _ _ _ _ _ _ _ i => i

/-- An object holding only a `$ref` field (`method.request` / `method.response`). -/
structure SchemaRefField where
  ref : Option String

/-- `gapi.client.discovery.RestMethod`, restricted to the fields read. -/
structure RestMethod where
  id : Option String
  parameters : Option (List (String × JsonSchema))
  description : Option String
  request : Option SchemaRefField
  response : Option SchemaRefField

/-- `gapi.client.discovery.RestResource`: methods plus nested resources. -/
inductive RestResource where
  | mk (methods : Option (List (String × RestMethod)))
       (resources : Option (List (String × RestResource)))

def RestResource.methods : RestResource → Option (List (String × RestMethod))
  | .mk m _ => m

def RestResource.resources : RestResource → Option (List (String × RestResource))
  | .mk _ r => r

/-- `gapi.client.discovery.RestDescription`, restricted to the fields the
declaration emitter reads.  Scalar string fields that are always present in
a discovery document are modelled as plain `String`. -/
structure RestDescription where
  name : String
  version : String
  title : String
  ownerName : String
  documentationLink : String
  schemas : Option (List (String × JsonSchema))
  resources : Option (List (String × RestResource))
  parameters : Option (List (String × JsonSchema))

/-! ## Records: JS objects as insertion-ordered association lists -/

/-- JS property lookup `record[key]` (keys of a JS object are unique). -/
def recLookup {T : Type} : String → List (String × T) → Option T
  | _, [] => none
  | k, (k1, v) :: rest => if k1 = k then some v else recLookup k rest

/-- `_.keys(record)`: the keys in insertion order. -/
def recKeys {T : Type} (r : List (String × T)) : List String := r.map Prod.fst

/-- The entries of a record in the order `forEachOrdered` visits them:
keys sorted by the JS comparator, each paired with its looked-up value. -/
def sortedEntries {T : Type} (r : List (String × T)) : List (String × T) :=
  (sortKeysJs (recKeys r)).filterMap (fun k => (recLookup k r).map (fun v => (k, v)))

/-- Iteration part of `forEachOrdered` (`iterator(record[key], key, index++)`). -/
def forEachOrderedGo {T : Type} (f : T → String → Nat → Act) : List (String × T) → Nat → Act
  | [], _ => skipA
  | (k, v) :: rest, i => aseq (f v k i) (forEachOrderedGo f rest (i + 1))

/-- Source `forEachOrdered`: nothing for a missing record, otherwise visit
the entries in sorted key order. -/
def forEachOrderedA {T : Type} (record : Option (List (String × T)))
    (f : T → String → Nat → Act) : Act :=
  match record with
  | none => skipA
  | some r => forEachOrderedGo f (sortedEntries r) 0

/-- Source `sortKeys`: rebuild the record with its keys in sorted order. -/
def sortKeysRec {T : Type} (record : List (String × T)) : List (String × T) :=
  sortedEntries record

/-! ## Small pure helpers of the generator -/

/-- `typesMap` (module-level constant). -/
def typesMap : String → Option String
  | "integer" => some "number"
  | "object" => some "any"
  | "any" => some "any"
  | "string" => some "string"
  | _ => none

/-- Source `isEmptySchema`: `_.isEmpty(schema.properties) && !schema.additionalProperties`. -/
def isEmptySchema (schema : JsonSchema) : Bool :=
  (match schema.properties with
   | none => true
   | some l => l.isEmpty) && schema.additionalProperties.isNone

/-- JavaScript `text.split(sep)` for a one-character separator. -/
def splitCharJs (sep : Char) : List Char → List (List Char)
  | [] => [[]]
  | c :: rest =>
    if c = sep then [] :: splitCharJs sep rest
    else
      match splitCharJs sep rest with
      | [] => [[c]]
      | h :: t => (c :: h) :: t

/-- Source `getName`: the last segment of a dot-separated id. -/
def getName (path : String) : String :=
  String.mk ((splitCharJs '.' path.data).getLastD [])

/-- Source `getResourceTypeName` / `firstLetterUp`: capitalise the first
character (ASCII, as `Char.toUpper`) and append `"Resource"`.  The source
would throw on an empty name; resource names are never empty. -/
def getResourceTypeName (resourceName : String) : String :=
  match resourceName.data with
  | [] => "Resource"
  | c :: rest => String.mk (c.toUpper :: rest) ++ "Resource"

/-- Source `formatComment`: identity on non-empty comments. -/
def formatComment (comment : String) : String :=
  if comment = "" then "" else comment

/-- The guarded comment emission `x.description && writer.comment(formatComment(x.description))`. -/
def optCommentA (description : Option String) : Act :=
  match description with
  | none => skipA
  | some d => if d = "" then skipA else commentA (formatComment d) false

/-- Source `convertVersion` core: find the first `v`, then read
`/v(\d+)?\.?(\d+)?/` and render `` `${major || 0}.${minor || 0}` ``. -/
def convertVersionCore : List Char → String
  | [] => "0.0"
  | c :: rest =>
    if c = 'v' then
      let major := rest.takeWhile (fun d => d.isDigit)
      let rest1 := rest.dropWhile (fun d => d.isDigit)
      let rest2 := match rest1 with
        | '.' :: r => r
        | r => r
      let minor := rest2.takeWhile (fun d => d.isDigit)
      (if major.isEmpty then "0" else String.mk major) ++ "." ++
        (if minor.isEmpty then "0" else String.mk minor)
    else convertVersionCore rest

/-- Source `convertVersion` (`version.match(/v(\d+)?\.?(\d+)?/)`). -/
def convertVersion (version : String) : String :=
  convertVersionCore version.data

/-! ## The Type Renderer: `getType` -/

/-- Source `getType`.  Returns an inline type expression or a deferred
block callback; thrown `checkExists` / `throw Error()` become `.error`.
The callbacks perform their own recursive `getType` calls at run time,
exactly as the source closures do. -/
def getType (fuel : Nat) (type : JsonSchema)
    (schemas : Option (List (String × JsonSchema))) : Except GErr StrOrCb :=
  match fuel with
  | 0 => .error .outOfFuel
  | fuel + 1 =>
    if type.type = some "array" then
      match type.items with
      | none => .error (.fail "Expected property 'items' on array type but was undefined")
      | some items =>
        match getType fuel items schemas with
        | .error e => .error e
        | .ok (.inl child) => .ok (.inl (child ++ "[]"))
        | .ok (.inr child) => .ok (.inr (aseq (writeA "Array<") (aseq child (writeA ">"))))
    else if type.type = some "object" && type.properties.isSome then
      .ok (.inr (anonymysTypeA (aseq
        (forEachOrderedA type.properties (fun property propertyName _ =>
          aseq (optCommentA property.description)
            (fun s =>
              match getType fuel property schemas with
              | .error e => (s, some e)
              | .ok ty => propertyA propertyName ty (property.required.getD false) s)))
        (match type.additionalProperties with
         | some ap => fun s =>
             match getType fuel ap schemas with
             | .error e => (s, some e)
             | .ok ty => propertyA "[key: string]" ty true s
         | none => skipA))))
    else if type.type = some "object" && type.additionalProperties.isSome then
      .ok (.inr (fun s =>
        match type.additionalProperties with
        | none => (s, some (GErr.fail "Expected value to be defined but received undefined"))
        | some ap =>
          match getType fuel ap schemas with
          | .error e => (s, some e)
          | .ok child =>
            (aseq (writeA "Record<string, ") (aseq (writeSV child) (writeA ">"))) s))
    else
      match type.type with
      | some tname =>
        let t := (typesMap tname).getD tname
        .ok (.inl (if type.repeated.getD false then t ++ " | " ++ t ++ "[]" else t))
      | none =>
        match type.ref with
        | some r =>
          match schemas with
          | none => .error (.fail "Expected value to be defined but received undefined")
          | some ss =>
            match recLookup r ss with
            | none => .error (.fail "TypeError: cannot read properties of undefined")
            | some referencedType =>
              if isEmptySchema referencedType then .ok (.inl "any") else .ok (.inl r)
        | none => .error (.fail "")

/-- Source `getMethodReturn`. -/
def getMethodReturn (method : RestMethod)
    (schemas : Option (List (String × JsonSchema))) : Except GErr String :=
  match schemas with
  | none => .error (.fail "Expected value to be defined but received undefined")
  | some ss =>
    let name := if (recLookup "Request" ss).isSome then "client.Request" else "Request"
    match method.response with
    | some resp =>
      match resp.ref with
      | some schemaName =>
        match recLookup schemaName ss with
        | some schema =>
          if isEmptySchema schema = false then .ok (name ++ "<" ++ schemaName ++ ">")
          else .ok (name ++ "<\x7b\x7d>")
        | none => .ok (name ++ "<\x7b\x7d>")
      | none => .ok (name ++ "<\x7b\x7d>")
    | none => .ok (name ++ "<void>")

/-! ## Method emission (`TypescriptTextWriter.method`) -/

/-- The `_.forEach(parameters, ...)` loop of `TypescriptTextWriter.method`. -/
def methodParamsGo (singleLine : Bool) (total : Nat) :
    List (String × StrOrCb) → Nat → Act
  | [], _ => skipA
  | (p, ty) :: rest, i =>
    aseq (writeA (p ++ ": "))
      (aseq (writeSV ty)
        (aseq
          (if i + 1 < total then
            aseq (writeA ",") (if singleLine then writeA " " else beginNewLineA "")
          else skipA)
          (methodParamsGo singleLine total rest (i + 1))))

/-- `TypescriptTextWriter.method`. -/
def methodA (name : String) (parameters : List (String × StrOrCb)) (returnType : String)
    (singleLine : Bool) : Act :=
  aseq (startIndentedLineA (name ++ "("))
    (aseq (methodParamsGo singleLine parameters.length parameters 0)
      (aseq (writeA ("): " ++ returnType ++ ";")) (endLineA "")))

/-! ## The Declaration Emitter: `App.writeResources` and `App.processApi` -/

/-- JS object spread `{...a, ...b}`: keys of `a` in order (values overridden
by `b` where present), then the keys of `b` not already in `a`. -/
def spreadMerge {T : Type} (a b : List (String × T)) : List (String × T) :=
  a.map (fun kv => (kv.1, (recLookup kv.1 b).getD kv.2)) ++
    b.filter (fun kv => (recLookup kv.1 a).isNone)

/-- The `request` parameter callback of a method: an anonymous structural
type merging global and method parameters, fields in sorted key order. -/
def requestParamCb (fuel : Nat) (parameters : List (String × JsonSchema))
    (schemas : Option (List (String × JsonSchema))) (method : RestMethod) : Act :=
  anonymysTypeA (forEachOrderedA
    (some (spreadMerge parameters (method.parameters.getD [])))
    (fun data key _ =>
      aseq (optCommentA data.description)
        (fun s =>
          match getType fuel data schemas with
          | .error e => (s, some e)
          | .ok ty => propertyA key ty (data.required.getD false) s)))

/-- Tail of the per-method body of `writeResources`: `checkExists(method.id)`,
evaluation of `getMethodReturn`, then `out.method(...)`. -/
def methodTail (fuel : Nat) (parameters : List (String × JsonSchema))
    (schemas : Option (List (String × JsonSchema))) (method : RestMethod)
    (requestBody : List (String × StrOrCb)) : Act := fun s =>
  match method.id with
  | none => (s, some (GErr.fail "Expected property 'id' on method type but was undefined"))
  | some mid =>
    match getMethodReturn method schemas with
    | .error e => (s, some e)
    | .ok ret =>
      methodA (getName mid)
        (("request", Sum.inr (requestParamCb fuel parameters schemas method)) :: requestBody)
        ret false s

/-- One iteration of the `forEachOrdered(resource.methods, ...)` loop in
`writeResources`: comment, optional `body` parameter from `method.request`,
then the method signature. -/
def methodEntryAct (fuel : Nat) (parameters : List (String × JsonSchema))
    (schemas : Option (List (String × JsonSchema))) (method : RestMethod) : Act :=
  aseq (optCommentA method.description)
    (fun s0 =>
      match (match method.request with
             | some r => r.ref
             | none => none) with
      | some sn =>
        (match schemas with
         | none => (s0, some (GErr.fail "Expected value to be defined but received undefined"))
         | some ss =>
           match recLookup sn ss with
           | none => (s0, some (GErr.fail "TypeError: cannot read properties of undefined"))
           | some schema =>
             methodTail fuel parameters schemas method
               [("body", Sum.inl (if isEmptySchema schema then "any" else sn))] s0)
      | none => methodTail fuel parameters schemas method [] s0)

/-- Source `App.writeResources`: for each resource in sorted key order,
first recurse into the nested resources, then emit the resource interface
(methods in sorted order, then one property per child resource typed by the
child's interface name — the source inlines the `getResourceTypeName`
formula at that call site). -/
def writeResources (fuel : Nat)
    (resources : Option (List (String × RestResource)))
    (parameters : List (String × JsonSchema))
    (schemas : Option (List (String × JsonSchema))) : Act :=
  match fuel with
  | 0 => errA .outOfFuel
  | fuel + 1 =>
    forEachOrderedA resources (fun resource resourceName _ =>
      aseq (writeResources fuel resource.resources parameters schemas)
        (interfaceA (getResourceTypeName resourceName)
          (aseq
            (forEachOrderedA resource.methods (fun method _name _i =>
              methodEntryAct fuel parameters schemas method))
            (forEachOrderedA resource.resources (fun _child childResourceName _ =>
              propertyA childResourceName (.inl (getResourceTypeName childResourceName)) true)))))

/-- The schema-interface loop of `processApi`: one interface per non-empty
named schema, fields in sorted order, plus an index signature when
`additionalProperties` is present. -/
def schemaInterfacesAct (fuel : Nat) (api : RestDescription) : Act :=
  forEachOrderedA api.schemas (fun schema _key _ =>
    match schema.id with
    | none => errA (.fail "Expected value to be defined but received undefined")
    | some sid =>
      if isEmptySchema schema = false then
        interfaceA sid
          (aseq
            (forEachOrderedA schema.properties (fun data key _ =>
              aseq (optCommentA data.description)
                (fun s =>
                  match getType fuel data api.schemas with
                  | .error e => (s, some e)
                  | .ok ty => propertyA key ty (data.required.getD false) s)))
            (match schema.additionalProperties with
             | some ap => fun s =>
                 match getType fuel ap api.schemas with
                 | .error e => (s, some e)
                 | .ok ty => propertyA "[key: string]" ty true s
             | none => skipA))
      else skipA)

/-- The `const <resource>: <Type>Resource;` loop at the end of `processApi`. -/
def constResourcesAct (api : RestDescription) : Act :=
  forEachOrderedA api.resources (fun _resource resourceName _ =>
    if resourceName = "debugger" then skipA
    else
      aseq (endLineA "")
        (writeLineA ("const " ++ resourceName ++ ": " ++ getResourceTypeName resourceName ++ ";")))

/-- Source `App.processApi`: the complete declaration-file emission for one
API document (header comment block, reference directive, `declare namespace
gapi.client` with the two `load` overloads, schema interfaces, resource
interfaces and resource constants).  Console logging and the unused
`methods`/`grouped` locals have no output effect and are not modelled. -/
def processApi (fuel : Nat) (api : RestDescription) (url : String) : Act :=
  aseq (writeLineA ("// Type definitions for non-npm package " ++ api.ownerName ++ " " ++
      api.title ++ " " ++ api.version ++ " " ++ convertVersion api.version))
    (aseq (writeLineA ("// Project: " ++ api.documentationLink))
      (aseq (writeLineA "// Definitions by: Bolisov Alexey <https://github.com/Bolisov>")
        (aseq (writeLineA "//                 Declan Vong <https://github.com/declanvong>")
          (aseq (writeLineA "// Definitions: https://github.com/DefinitelyTyped/DefinitelyTyped")
            (aseq (writeLineA "// TypeScript Version: 3.7")
              (aseq (writeLineA "")
                (aseq (writeLineA "// IMPORTANT")
                  (aseq (writeLineA "// These definitions are for the Google API Javascript Client: https://github.com/google/google-api-javascript-client")
                    (aseq (writeLineA "// This file was generated by https://github.com/declanvong/google-api-typings-generator. Please do not edit it manually.")
                      (aseq (writeLineA "// In case of any problems please post issue to https://github.com/declanvong/google-api-typings-generator")
                        (aseq (writeLineA ("// Generated from: " ++ url))
                          (aseq (writeLineA "")
                            (aseq (referenceTypesA "gapi.client")
                              (declareNamespaceA "gapi.client"
                                (aseq (commentA (formatComment ("Load " ++ api.title ++ " " ++ api.version)) false)
                                  (aseq (methodA "function load"
                                      [("name", .inl ("\"" ++ api.name ++ "\"")),
                                       ("version", .inl ("\"" ++ api.version ++ "\""))]
                                      "PromiseLike<void>" true)
                                    (aseq (methodA "function load"
                                        [("name", .inl ("\"" ++ api.name ++ "\"")),
                                         ("version", .inl ("\"" ++ api.version ++ "\"")),
                                         ("callback", .inl "() => any")]
                                        "void" true)
                                      (aseq (endLineA "")
                                        (namespaceA api.name
                                          (aseq (schemaInterfacesAct fuel api)
                                            (aseq
                                              (writeResources fuel api.resources
                                                (api.parameters.getD []) api.schemas)
                                              (constResourcesAct api))))))))))))))))))))))

/-- The full declaration-file output of one run of `processApi` from the
initial writer state. -/
def processApiOut (fuel : Nat) (api : RestDescription) (url : String) : WSt × Option GErr :=
  processApi fuel api url ⟨"", 0, []⟩

/-! ## The Example/Stub Value Generator (`App.writePropertyValue` etc.) -/

mutual

/-- Source `App.writePropertyValue`: fixed literals for scalars, recursion
for arrays and objects, `Unknown scalar type` otherwise. -/
def writePropertyValue (fuel : Nat) (api : RestDescription) (property : JsonSchema) : Act :=
  match fuel with
  | 0 => errA .outOfFuel
  | fuel + 1 =>
    match property.type with
    | some "number" => writeA "42"
    | some "integer" => writeA "42"
    | some "boolean" => writeA "true"
    | some "string" => writeA "\"Test string\""
    | some "array" =>
      match property.items with
      | none => errA (.fail "Expected property 'items' on array type but was undefined")
      | some items => writeArray fuel api items
    | some "object" => writeObject fuel api property
    | some "any" => writeA "42"
    | _ => errA (.fail "Unknown scalar type")
termination_by (fuel, 2, 0)

/-- Source `App.writeArray`: a one-element bracketed literal; a reference
already being expanded short-circuits to `undefined`. -/
def writeArray (fuel : Nat) (api : RestDescription) (items : JsonSchema) : Act :=
  match fuel with
  | 0 => errA .outOfFuel
  | fuel + 1 => fun s =>
    match items.ref with
    | some schemaName =>
      if s.seen.contains schemaName then writeA "undefined" s
      else scopeA (aseq (beginNewLineA "") (writeSchemaRef fuel api schemaName)) "[" "]" s
    | none => scopeA (aseq (beginNewLineA "") (writePropertyValue fuel api items)) "[" "]" s
termination_by (fuel, 0, 0)

/-- Source `App.writeObject`: fixed-shape objects write their properties,
map-shape objects write a placeholder `A:` entry, anything else falls back
to `writePropertyValue` on the same node. -/
def writeObject (fuel : Nat) (api : RestDescription) (object : JsonSchema) : Act :=
  match fuel with
  | 0 => errA .outOfFuel
  | fuel + 1 => fun s =>
    let schemaName := object.additionalProperties.bind JsonSchema.ref
    if (match schemaName with
        | some n => s.seen.contains n
        | none => false) then
      writeA "undefined" s
    else
      match object.properties with
      | some props => scopeA (writeProperties fuel api props) "\x7b" "\x7d" s
      | none =>
        match object.additionalProperties with
        | some ap =>
          scopeA
            (aseq (beginNewLineA "A: ")
              (match schemaName with
               | some n => writeSchemaRef fuel api n
               | none => writePropertyValue fuel api ap)) "\x7b" "\x7d" s
        | none => writePropertyValue fuel api object s
termination_by (fuel, 1, 0)

/-- Source `App.writeSchemaRef`: the cycle guard.  A name already in
`seenSchemaRefs` writes `undefined`; otherwise the name is added, the
schema expanded, and the name deleted — only on the non-throwing path,
as in the source. -/
def writeSchemaRef (fuel : Nat) (api : RestDescription) (schemaName : String) : Act :=
  match fuel with
  | 0 => errA .outOfFuel
  | fuel + 1 => fun s =>
    if s.seen.contains schemaName then writeA "undefined" s
    else
      match api.schemas with
      | none => (s, some (GErr.fail "Expected value to be defined but received undefined"))
      | some ss =>
        match recLookup schemaName ss with
        | none =>
          (s, some (GErr.fail ("Attempted to generate stub for unknown schema '" ++
            schemaName ++ "'")))
        | some schema =>
          let s1 : WSt :=
            { s with seen := if s.seen.contains schemaName then s.seen else schemaName :: s.seen }
          match writeObject fuel api schema s1 with
          | (s2, none) => ({ s2 with seen := s2.seen.erase schemaName }, none)
          | r => r
termination_by (fuel, 0, 0)

/-- Source `App.writeProperties`: `forEachOrdered` over the record. -/
def writeProperties (fuel : Nat) (api : RestDescription)
    (record : List (String × JsonSchema)) : Act :=
  match fuel with
  | 0 => errA .outOfFuel
  | fuel + 1 => writePropsGo fuel api (sortedEntries record)
termination_by (fuel, 3, 0)

/-- The iteration of `writeProperties` over the sorted entries. -/
def writePropsGo (fuel : Nat) (api : RestDescription) :
    List (String × JsonSchema) → Act
  | [] => skipA
  | (name, parameter) :: rest =>
    aseq (beginNewLineA (formatPropertyName name ++ ": "))
      (aseq
        (if parameter.type = some "object" then writeObject fuel api parameter
         else
           match parameter.ref with
           | some r => writeSchemaRef fuel api r
           | none => writePropertyValue fuel api parameter)
        (aseq (writeA ",") (writePropsGo fuel api rest)))
termination_by l => (fuel, 2, l.length + 1)

end

/-! ## The usage-stub file: `App.writeResourceTests` and the `run()` loop -/

mutual

/-- Source `App.writeResourceTests`.  Note the loop structure of the
source: the `for (const subResource in resource.resources)` loop is nested
inside the `for (const methodName in resource.methods)` loop. -/
def writeResourceTests (fuel : Nat) (api : RestDescription)
    (ancestors resourceName : String) (resource : RestResource) : Act :=
  match fuel with
  | 0 => errA .outOfFuel
  | fuel + 1 =>
    wrtMethodsGo fuel api ancestors resourceName resource (resource.methods.getD [])
termination_by (fuel, 0, 0)

/-- The `for (const methodName in resource.methods)` loop body (insertion
order, as JS `for...in`): emit one invocation, then visit every
sub-resource before moving to the next method. -/
def wrtMethodsGo (fuel : Nat) (api : RestDescription)
    (ancestors resourceName : String) (resource : RestResource) :
    List (String × RestMethod) → Act
  | [] => skipA
  | (methodName, m) :: rest =>
    aseq (endLineA "")
      (aseq (commentA (m.description.getD "") false)
        (aseq (beginLineA ("await " ++ ancestors ++ "." ++ resourceName ++ "." ++
            methodName ++ "("))
          (aseq
            (match m.parameters with
             | some params => scopeA (writeProperties fuel api params) "\x7b" "\x7d"
             | none => skipA)
            (aseq
              (match (match m.request with
                      | some r => r.ref
                      | none => none) with
               | some ref => aseq (writeA ", ") (writeSchemaRef fuel api ref)
               | none => skipA)
              (aseq (writeA ");")
                (aseq
                  (wrtSubsGo fuel api (ancestors ++ "." ++ resourceName)
                    (resource.resources.getD []))
                  (wrtMethodsGo fuel api ancestors resourceName resource rest)))))))
termination_by l => (fuel, 1, l.length + 1)

/-- The `for (const subResource in resource.resources)` loop. -/
def wrtSubsGo (fuel : Nat) (api : RestDescription) (ancestors : String) :
    List (String × RestResource) → Act
  | [] => skipA
  | (subName, sub) :: rest =>
    aseq (writeResourceTests fuel api ancestors subName sub)
      (wrtSubsGo fuel api ancestors rest)
termination_by l => (fuel, 0, l.length + 1)

end

/-- The `run()` body of `App.writeTests` (source lines around the
`for (const resourceName in api.resources)` loop): exercise each top-level
resource tree in insertion order. -/
def writeTestsRunLoop (fuel : Nat) (api : RestDescription) : Act :=
  wrtSubsGo fuel api ("gapi.client." ++ api.name) (api.resources.getD [])

/-! ## Invariant predicates used by the verification -/

/-- An action is `SeenOk` when a successful run leaves `seenSchemaRefs`
exactly as it was, and any run (also a throwing one) at most grows it. -/
def SeenOk (a : Act) : Prop :=
  ∀ s : WSt, ((a s).2 = none → (a s).1.seen = s.seen) ∧ (∀ x ∈ s.seen, x ∈ (a s).1.seen)

/-- An action is `OutExt` when it only ever appends to the output buffer:
whatever it writes is appended after the buffer it started from. -/
def OutExt (a : Act) : Prop :=
  ∀ s : WSt, ∃ t : String, ((a s).1).out = s.out ++ t

/-- Two optional records that are reorderings of one another: same
entries, with duplicate-free keys (JS objects cannot have duplicates). -/
def recPermNodup {T : Type} (a b : Option (List (String × T))) : Prop :=
  match a, b with
  | none, none => True
  | some x, some y => x.Perm y ∧ (recKeys x).Nodup
  | _, _ => False

/-- Two API documents that are equal except that the `schemas` and
`resources` records may list their entries in a different order. -/
def apiEquiv (api api2 : RestDescription) : Prop :=
  api.name = api2.name ∧ api.version = api2.version ∧ api.title = api2.title ∧
  api.ownerName = api2.ownerName ∧ api.documentationLink = api2.documentationLink ∧
  api.parameters = api2.parameters ∧
  recPermNodup api.schemas api2.schemas ∧
  recPermNodup api.resources api2.resources

/-! ## Order theory for the JS key sort -/

theorem charListLt_irrefl : ∀ l : List Char, charListLt l l = false
  | [] => rfl
  | c :: rest => by
    unfold charListLt
    simp [lt_irrefl, charListLt_irrefl rest]

theorem charListLt_trans : ∀ (a b c : List Char), charListLt a b = true →
    charListLt b c = true → charListLt a c = true
  | [], [], _, hab, _ => by simp [charListLt] at hab
  | [], _ :: _, [], _, hbc => by simp [charListLt] at hbc
  | [], _ :: _, _ :: _, _, _ => by simp [charListLt]
  | _ :: _, [], _, hab, _ => by simp [charListLt] at hab
  | _ :: _, _ :: _, [], _, hbc => by simp [charListLt] at hbc
  | a1 :: as, b1 :: bs, c1 :: cs, hab, hbc => by
    unfold charListLt at hab hbc ⊢
    by_cases h1 : a1 < b1
    · by_cases h2 : b1 < c1
      · simp [lt_trans h1 h2]
      · by_cases h3 : c1 < b1
        · simp [h2, h3] at hbc
        · have hbe : b1 = c1 := le_antisymm (not_lt.mp h3) (not_lt.mp h2)
          subst hbe
          simp [h1]
    · by_cases h1b : b1 < a1
      · simp [h1, h1b] at hab
      · have hae : a1 = b1 := le_antisymm (not_lt.mp h1b) (not_lt.mp h1)
        subst hae
        simp [h1, h1b] at hab
        by_cases h2 : a1 < c1
        · simp [h2]
        · by_cases h3 : c1 < a1
          · simp [h2, h3] at hbc
          · simp [h2, h3] at hbc ⊢
            exact charListLt_trans as bs cs hab hbc

theorem charListLt_conn : ∀ (a b : List Char), charListLt a b = false →
    charListLt b a = false → a = b
  | [], [], _, _ => rfl
  | [], _ :: _, hab, _ => by simp [charListLt] at hab
  | _ :: _, [], _, hba => by simp [charListLt] at hba
  | a1 :: as, b1 :: bs, hab, hba => by
    unfold charListLt at hab hba
    by_cases h1 : a1 < b1
    · simp [h1] at hab
    · by_cases h2 : b1 < a1
      · simp [h2] at hba
      · have hae : a1 = b1 := le_antisymm (not_lt.mp h2) (not_lt.mp h1)
        subst hae
        simp [h1, h2] at hab hba
        rw [charListLt_conn as bs hab hba]

theorem string_data_inj {a b : String} (h : a.data = b.data) : a = b := by
  cases a
  cases b
  exact congrArg String.mk h

theorem strLtJs_irrefl (a : String) : strLtJs a a = false := charListLt_irrefl a.data

theorem strLtJs_trans {a b c : String} (h1 : strLtJs a b = true) (h2 : strLtJs b c = true) :
    strLtJs a c = true := charListLt_trans a.data b.data c.data h1 h2

theorem strLtJs_conn {a b : String} (h1 : strLtJs a b = false) (h2 : strLtJs b a = false) :
    a = b := string_data_inj (charListLt_conn a.data b.data h1 h2)

theorem strLtJs_asymm {a b : String} (h : strLtJs a b = true) : strLtJs b a = false := by
  by_contra hc
  have h2 : strLtJs b a = true := by
    cases hv : strLtJs b a
    · exact absurd hv hc
    · rfl
  have h3 := strLtJs_trans h h2
  rw [strLtJs_irrefl] at h3
  simp at h3

theorem sortLe_trans : ∀ (a b c : String), strLtJs b a = false → strLtJs c b = false →
    strLtJs c a = false := by
  intro a b c hab hbc
  cases hca : strLtJs c a
  · rfl
  · exfalso
    cases hbc2 : strLtJs b c
    · have heq : c = b := strLtJs_conn hbc hbc2
      subst heq
      rw [hca] at hab
      simp at hab
    · have h2 := strLtJs_trans hbc2 hca
      rw [h2] at hab
      simp at hab

theorem sortLe_total (a b : String) : strLtJs b a = false ∨ strLtJs a b = false := by
  cases h1 : strLtJs b a
  · exact Or.inl rfl
  · exact Or.inr (strLtJs_asymm h1)

theorem sortKeysJs_perm (l : List String) : (sortKeysJs l).Perm l :=
  List.perm_insertionSort _ l

theorem sortKeysJs_sorted (l : List String) :
    List.Pairwise (fun a b => strLtJs b a = false) (sortKeysJs l) := by
  haveI : IsTotal String (fun a b => strLtJs b a = false) := ⟨sortLe_total⟩
  haveI : IsTrans String (fun a b => strLtJs b a = false) :=
    ⟨fun a b c h1 h2 => sortLe_trans a b c h1 h2⟩
  exact List.sorted_insertionSort _ l

theorem sortKeysJs_pairwise_lt (l : List String) (h : l.Nodup) :
    List.Pairwise (fun a b => strLtJs a b = true) (sortKeysJs l) := by
  have hnd : (sortKeysJs l).Nodup := ((sortKeysJs_perm l).symm).nodup h
  have hs := sortKeysJs_sorted l
  refine (hs.and hnd).imp ?_
  intro a b hab
  cases hlt : strLtJs a b
  · exact absurd (strLtJs_conn hlt hab.1) hab.2
  · rfl

theorem sortKeysJs_eq_of_perm (l1 l2 : List String) (h : l1.Perm l2) (hnd : l1.Nodup) :
    sortKeysJs l1 = sortKeysJs l2 := by
  haveI : IsAntisymm String (fun a b => strLtJs a b = true) := by
    constructor
    intro a b h1 h2
    have h3 := strLtJs_trans h1 h2
    rw [strLtJs_irrefl] at h3
    simp at h3
  exact List.eq_of_perm_of_sorted
    ((sortKeysJs_perm l1).trans (h.trans (sortKeysJs_perm l2).symm))
    (sortKeysJs_pairwise_lt l1 hnd)
    (sortKeysJs_pairwise_lt l2 (h.nodup hnd))

theorem recLookup_mem_isSome {T : Type} :
    ∀ (r : List (String × T)) (k : String), k ∈ recKeys r → (recLookup k r).isSome = true := by
  intro r
  induction r with
  | nil => intro k hk; simp [recKeys] at hk
  | cons p rest ih =>
    obtain ⟨k1, v⟩ := p
    intro k hk
    rw [recLookup]
    by_cases he : k1 = k
    · simp [he]
    · simp only [he, if_false]
      have hk2 : k ∈ k1 :: recKeys rest := hk
      rcases List.mem_cons.mp hk2 with h | h
      · exact absurd h.symm he
      · exact ih k h

theorem recLookup_perm {T : Type} {r1 r2 : List (String × T)} (h : r1.Perm r2) :
    (recKeys r1).Nodup → ∀ k, recLookup k r1 = recLookup k r2 := by
  induction h with
  | nil => intro _ k; rfl
  | cons x _h ih =>
    obtain ⟨k1, v⟩ := x
    intro hnd k
    rw [recLookup, recLookup]
    by_cases he : k1 = k
    · simp [he]
    · simp only [he, if_false]
      have hnd2 : (k1 :: recKeys _).Nodup := hnd
      exact ih (List.nodup_cons.mp hnd2).2 k
  | swap x y l =>
    obtain ⟨kx, vx⟩ := x
    obtain ⟨ky, vy⟩ := y
    intro hnd k
    have hnd2 : (ky :: kx :: recKeys l).Nodup := hnd
    have hxy : ky ≠ kx := by
      have hy := (List.nodup_cons.mp hnd2).1
      intro he
      exact hy (by simp [he])
    rw [recLookup, recLookup, recLookup, recLookup]
    by_cases h1 : ky = k
    · by_cases h2 : kx = k
      · exact absurd (h1.trans h2.symm) hxy
      · simp [h1, h2]
    · by_cases h2 : kx = k
      · simp [h1, h2]
      · simp [h1, h2]
  | trans h1 _h2 ih1 ih2 =>
    intro hnd k
    rw [ih1 hnd k]
    exact ih2 (((h1.map Prod.fst).nodup) hnd) k

theorem sortedEntries_eq_of_perm {T : Type} (r1 r2 : List (String × T)) (h : r1.Perm r2)
    (hnd : (recKeys r1).Nodup) : sortedEntries r1 = sortedEntries r2 := by
  unfold sortedEntries
  rw [sortKeysJs_eq_of_perm (recKeys r1) (recKeys r2) (h.map Prod.fst) hnd]
  have hfun : (fun k => (recLookup k r1).map (fun v => (k, v))) =
      (fun k => (recLookup k r2).map (fun v => (k, v))) := by
    funext k
    rw [recLookup_perm h hnd k]
  rw [hfun]

theorem recKeys_filterMap_lookup {T : Type} (r : List (String × T)) :
    ∀ ks : List String, (∀ k ∈ ks, k ∈ recKeys r) →
      recKeys (ks.filterMap (fun k => (recLookup k r).map (fun v => (k, v)))) = ks := by
  intro ks
  induction ks with
  | nil => intro _; rfl
  | cons k rest ih =>
    intro hmem
    have hk : k ∈ recKeys r := hmem k (List.mem_cons_self k rest)
    have hs := recLookup_mem_isSome r k hk
    rcases ho : recLookup k r with _ | v
    · rw [ho] at hs; simp at hs
    · simp only [List.filterMap_cons, ho, Option.map_some]
      have := ih (fun x hx => hmem x (List.mem_cons_of_mem k hx))
      simp [recKeys] at this ⊢
      exact this

theorem recKeys_sortedEntries {T : Type} (r : List (String × T)) :
    recKeys (sortedEntries r) = sortKeysJs (recKeys r) := by
  unfold sortedEntries
  exact recKeys_filterMap_lookup r (sortKeysJs (recKeys r))
    (fun k hk => ((sortKeysJs_perm (recKeys r)).mem_iff).mp hk)

/-- C5: for every keyed collection handed to `forEachOrdered` (schemas,
properties, resources, methods, request parameters), the visit order is the
key list sorted strictly lexicographically; it is a permutation of the
record's keys; the visited entries carry exactly those keys; and any
reordering of the input record is visited as the very same entry sequence. -/
theorem c5_forEachOrdered_lex_order {T : Type} (r : List (String × T))
    (hnd : (recKeys r).Nodup) :
    List.Pairwise (fun a b => strLtJs a b = true) (sortKeysJs (recKeys r)) ∧
    (sortKeysJs (recKeys r)).Perm (recKeys r) ∧
    recKeys (sortedEntries r) = sortKeysJs (recKeys r) ∧
    (∀ r2 : List (String × T), r2.Perm r → sortedEntries r2 = sortedEntries r) := by
  refine ⟨sortKeysJs_pairwise_lt (recKeys r) hnd, sortKeysJs_perm (recKeys r),
    recKeys_sortedEntries r, ?_⟩
  intro r2 hperm
  exact sortedEntries_eq_of_perm r2 r hperm (((hperm.map Prod.fst).symm).nodup hnd)

/-- Witness for C5 at the spec's example `{zeta, alpha, mid}`: the keys are
distinct, the theorem applies, and the visit order evaluates to
`alpha, mid, zeta`. -/
theorem c5_witness :
    (recKeys [("zeta", 1), ("alpha", 2), ("mid", 3)]).Nodup ∧
    sortKeysJs (recKeys [("zeta", 1), ("alpha", 2), ("mid", 3)]) = ["alpha", "mid", "zeta"] ∧
    (List.Pairwise (fun a b => strLtJs a b = true)
        (sortKeysJs (recKeys [("zeta", 1), ("alpha", 2), ("mid", 3)])) ∧
      (sortKeysJs (recKeys [("zeta", 1), ("alpha", 2), ("mid", 3)])).Perm
        (recKeys [("zeta", 1), ("alpha", 2), ("mid", 3)]) ∧
      recKeys (sortedEntries [("zeta", 1), ("alpha", 2), ("mid", 3)]) =
        sortKeysJs (recKeys [("zeta", 1), ("alpha", 2), ("mid", 3)]) ∧
      (∀ r2 : List (String × Nat), r2.Perm [("zeta", 1), ("alpha", 2), ("mid", 3)] →
        sortedEntries r2 = sortedEntries [("zeta", 1), ("alpha", 2), ("mid", 3)])) :=
  ⟨by decide, by decide,
    c5_forEachOrdered_lex_order [("zeta", 1), ("alpha", 2), ("mid", 3)] (by decide)⟩

/-- C10: a property name is emitted wrapped in double quotes exactly when
it contains `.`, `-` or `@`; every other name passes through unchanged. -/
theorem c10_formatPropertyName_quoting (name : String) :
    formatPropertyName name =
      (if name.data.contains '.' || name.data.contains '-' || name.data.contains '@'
       then "\"" ++ name ++ "\"" else name) ∧
    ((formatPropertyName name = "\"" ++ name ++ "\"") ↔
      (name.data.contains '.' || name.data.contains '-' || name.data.contains '@') = true) := by
  refine ⟨rfl, ?_, ?_⟩
  · intro h
    by_contra hc
    have hcond : (name.data.contains '.' || name.data.contains '-' ||
        name.data.contains '@') = false := by
      cases hv : (name.data.contains '.' || name.data.contains '-' || name.data.contains '@')
      · rfl
      · exact absurd hv hc
    rw [formatPropertyName, hcond] at h
    simp only [Bool.false_eq_true, if_false] at h
    have hlen := congrArg String.length h
    rw [String.length_append, String.length_append] at hlen
    have h1 : ("\"" : String).length = 1 := rfl
    rw [h1] at hlen
    omega
  · intro h
    rw [formatPropertyName, h]
    simp

/-- C6: rendering a reference node (`$ref` present, no `type`): when the
referenced schema is empty the universal type `any` is produced regardless
of the reference name, and otherwise the bare schema name is produced
inline, with no expansion of the referenced schema's body. -/
theorem c6_reference_type_rendering (fuel : Nat) (t : JsonSchema)
    (ss : List (String × JsonSchema)) (r : String) (referenced : JsonSchema)
    (htype : t.type = none) (href : t.ref = some r)
    (hlook : recLookup r ss = some referenced) :
    getType (fuel + 1) t (some ss) =
      (if isEmptySchema referenced then Except.ok (Sum.inl "any")
       else Except.ok (Sum.inl r)) := by
  rw [getType]
  simp [htype, href, hlook]

/-- Witness for C6: a reference to an empty schema renders `any`; a
reference to a schema with one property renders the bare name `B`. -/
theorem c6_witness :
    getType 1 (JsonSchema.mk none none none none (some "A") none none none none)
        (some [("A", JsonSchema.mk (some "object") none none none none none none none
          (some "A"))]) = Except.ok (Sum.inl "any") ∧
    getType 1 (JsonSchema.mk none none none none (some "B") none none none none)
        (some [("B", JsonSchema.mk (some "object") none
          (some [("p", JsonSchema.mk (some "string") none none none none none none none none)])
          none none none none none (some "B"))]) = Except.ok (Sum.inl "B") := by
  constructor
  · have h := c6_reference_type_rendering 0
      (JsonSchema.mk none none none none (some "A") none none none none)
      [("A", JsonSchema.mk (some "object") none none none none none none none (some "A"))]
      "A" (JsonSchema.mk (some "object") none none none none none none none (some "A"))
      rfl rfl rfl
    rw [h]
    rfl
  · have h := c6_reference_type_rendering 0
      (JsonSchema.mk none none none none (some "B") none none none none)
      [("B", JsonSchema.mk (some "object") none
        (some [("p", JsonSchema.mk (some "string") none none none none none none none none)])
        none none none none none (some "B"))]
      "B" (JsonSchema.mk (some "object") none
        (some [("p", JsonSchema.mk (some "string") none none none none none none none none)])
        none none none none none (some "B"))
      rfl rfl rfl
    rw [h]
    rfl

/-- C1 (amended): at every property emission that passes
`property.required || false` (schema interface fields, anonymous structural
type fields, method request parameters), the property renders with the
trailing `?` exactly when `required` is not literally `true`; in
particular a schema with `required` absent renders WITH the `?`. -/
theorem c1_required_rendering (name ty : String) (p : JsonSchema) (s : WSt) :
    (propertyA name (Sum.inl ty) (p.required.getD false) s).1.out =
      s.out ++ tabs s.indent ++ formatPropertyName name ++
        (if p.required = some true then "" else "?") ++ ": " ++ ty ++ ";" ++ newLineStr ∧
    (propertyA name (Sum.inl ty) (p.required.getD false) s).2 = none := by
  have hq : (p.required.getD false = true) ↔ p.required = some true := by
    cases p.required with
    | none => simp
    | some b => cases b <;> simp
  constructor
  · by_cases hb : p.required.getD false = true
    · simp [propertyA, writeLineA, startIndentedLineA, writeA, hb, hq.mp hb,
        String.append_assoc]
    · have hb2 : p.required.getD false = false := by
        cases hv : p.required.getD false
        · rfl
        · exact absurd hv hb
      have hnt : ¬ p.required = some true := fun hcon => hb (hq.mpr hcon)
      simp [propertyA, writeLineA, startIndentedLineA, writeA, hb2, hnt,
        String.append_assoc]
  · by_cases hb : p.required.getD false = true <;>
      simp [propertyA, writeLineA, startIndentedLineA, writeA]

/-- Counterexample to C1 as stated: a property whose schema has no
`required` field at all (`required = none`) is emitted WITH the `?`
marker, not without it. -/
theorem c1_counterexample :
    (JsonSchema.mk none none none none none none none none none).required = none ∧
    (propertyA "x" (Sum.inl "string")
        ((JsonSchema.mk none none none none none none none none none).required.getD false)
        ⟨"", 0, []⟩).1.out = "x?: string;\n" ∧
    (propertyA "x" (Sum.inl "string")
        ((JsonSchema.mk none none none none none none none none none).required.getD false)
        ⟨"", 0, []⟩).1.out.data.contains '?' = true := by
  exact ⟨rfl, by decide, by decide⟩

/-- C2 (code bug): in `writeResourceTests` the sub-resource loop is nested
inside the methods loop.  A parent resource with no methods of its own
emits no invocation at all for its sub-resource's method (first conjunct),
although visiting the sub-resource directly does emit one (second
conjunct); and a parent with two methods emits the sub-resource's
invocation twice (third conjunct). -/
theorem c2_subresources_inside_method_loop :
    writeResourceTests 10 (RestDescription.mk "x" "v" "t" "o" "d" none none none) "g" "r"
        (RestResource.mk none
          (some [("s", RestResource.mk
            (some [("m", RestMethod.mk (some "r.s.m") none none none none)]) none)]))
        ⟨"", 0, []⟩ = (⟨"", 0, []⟩, none) ∧
    (writeResourceTests 10 (RestDescription.mk "x" "v" "t" "o" "d" none none none) "g.r" "s"
        (RestResource.mk (some [("m", RestMethod.mk (some "r.s.m") none none none none)]) none)
        ⟨"", 0, []⟩).1.out = "\nawait g.r.s.m();" ∧
    (writeResourceTests 10 (RestDescription.mk "x" "v" "t" "o" "d" none none none) "g" "r"
        (RestResource.mk
          (some [("m1", RestMethod.mk (some "r.m1") none none none none),
                 ("m2", RestMethod.mk (some "r.m2") none none none none)])
          (some [("s", RestResource.mk
            (some [("m", RestMethod.mk (some "r.s.m") none none none none)]) none)]))
        ⟨"", 0, []⟩).1.out =
      "\nawait g.r.m1();\nawait g.r.s.m();\nawait g.r.m2();\nawait g.r.s.m();" := by
  refine ⟨?_, ?_, ?_⟩ <;>
    simp [writeResourceTests, wrtMethodsGo, wrtSubsGo, aseq, endLineA, commentA, beginLineA,
      writeA, startIndentedLineA, writeLineA, skipA, errA, tabs, commentLinesL, newLineStr,
      RestResource.methods, RestResource.resources]

/-! ## Lemmas on the comment pipeline (claim C8) -/

theorem splitSp_ne_nil : ∀ l : List Char, splitSp l ≠ [] := by
  intro l
  cases l with
  | nil => simp [splitSp]
  | cons c rest =>
    rw [splitSp]
    by_cases h : c = ' '
    · simp [h]
    · simp only [h, if_false]
      cases splitSp rest <;> simp

theorem mem_splitSp_no_space : ∀ (l : List Char) (w : List Char), w ∈ splitSp l → ' ' ∉ w := by
  intro l
  induction l with
  | nil =>
    intro w hw
    simp [splitSp] at hw
    simp [hw]
  | cons c rest ih =>
    intro w hw
    rw [splitSp] at hw
    by_cases h : c = ' '
    · simp only [h, if_true] at hw
      rcases List.mem_cons.mp hw with h2 | h2
      · simp [h2]
      · exact ih w h2
    · simp only [h, if_false] at hw
      rcases hs : splitSp rest with _ | ⟨h1, t1⟩
      · exact absurd hs (splitSp_ne_nil rest)
      · rw [hs] at hw
        rcases List.mem_cons.mp hw with h2 | h2
        · subst h2
          intro hsp
          rcases List.mem_cons.mp hsp with h3 | h3
          · exact h h3.symm
          · exact ih h1 (hs ▸ List.mem_cons_self h1 t1) h3
        · exact ih w (hs ▸ List.mem_cons_of_mem h1 h2)

theorem splitSp_append_space : ∀ a b : List Char,
    splitSp (a ++ ' ' :: b) = splitSp a ++ splitSp b := by
  intro a b
  induction a with
  | nil => simp [splitSp]
  | cons c a2 ih =>
    show splitSp (c :: (a2 ++ ' ' :: b)) = splitSp (c :: a2) ++ splitSp b
    rw [splitSp, splitSp]
    by_cases h : c = ' '
    · simp [h, ih]
    · simp only [h, if_false]
      rw [ih]
      rcases hs : splitSp a2 with _ | ⟨h1, t1⟩
      · exact absurd hs (splitSp_ne_nil a2)
      · simp

theorem splitSp_no_space : ∀ w : List Char, ' ' ∉ w → splitSp w = [w] := by
  intro w
  induction w with
  | nil => intro _; rfl
  | cons c rest ih =>
    intro h
    have hc : ¬ c = ' ' := fun he => h (by simp [he])
    rw [splitSp]
    simp only [hc, if_false]
    rw [ih (fun hm => h (List.mem_cons_of_mem c hm))]

theorem wordsOf_append_space (a b : List Char) :
    wordsOf (a ++ ' ' :: b) = wordsOf a ++ wordsOf b := by
  unfold wordsOf
  rw [splitSp_append_space, List.filter_append]

theorem wordsOf_word (w : List Char) (h : ' ' ∉ w) :
    wordsOf w = if w = [] then [] else [w] := by
  unfold wordsOf
  rw [splitSp_no_space w h]
  rcases w with _ | ⟨c, w2⟩
  · simp [List.filter]
  · simp [List.filter]

theorem wordsOf_nil : wordsOf [] = [] := by
  simp [wordsOf, splitSp, List.filter]

theorem wrapGo_words : ∀ (ws acc : List (List Char)) (cur : List Char),
    (∀ w ∈ ws, ' ' ∉ w) →
    (wrapGo ws acc cur).flatMap wordsOf =
      acc.flatMap wordsOf ++ wordsOf cur ++ ws.filter (fun w => w.isEmpty = false) := by
  intro ws
  induction ws with
  | nil =>
    intro acc cur _
    simp [wrapGo, List.flatMap_append]
  | cons w ws2 ih =>
    intro acc cur hsp
    have hw : ' ' ∉ w := hsp w (List.mem_cons_self w ws2)
    have hws2 : ∀ x ∈ ws2, ' ' ∉ x := fun x hx => hsp x (List.mem_cons_of_mem w hx)
    have hfw : wordsOf w ++ ws2.filter (fun x => x.isEmpty = false) =
        (w :: ws2).filter (fun x => x.isEmpty = false) := by
      rw [wordsOf_word w hw]
      rcases w with _ | ⟨c, w2⟩
      · simp [List.filter]
      · simp [List.filter]
    rw [wrapGo]
    by_cases h1 : 150 < cur.length + w.length
    · simp only [h1, if_true]
      rw [ih (acc ++ [cur]) w hws2, List.flatMap_append, ← hfw]
      simp [List.append_assoc]
    · simp only [h1, if_false]
      by_cases h2 : cur.isEmpty = true
      · simp only [h2, if_true]
        rw [ih acc w hws2, ← hfw]
        have hce : cur = [] := by
          rcases cur with _ | ⟨c, cur2⟩
          · rfl
          · simp [List.isEmpty] at h2
        subst hce
        rw [wordsOf_nil]
        simp
      · have h2b : cur.isEmpty = false := by
          cases hv : cur.isEmpty
          · rfl
          · exact absurd hv h2
        simp only [h2b, Bool.false_eq_true, if_false]
        rw [ih acc (cur ++ ' ' :: w) hws2, wordsOf_append_space, ← hfw]
        simp [List.append_assoc]

theorem wrapLine_words (line : List Char) :
    (wrapLine line).flatMap wordsOf = wordsOf line := by
  unfold wrapLine
  rw [wrapGo_words (splitSp line) [] [] (fun w hw => mem_splitSp_no_space line w hw)]
  rw [wordsOf_nil]
  simp [wordsOf]

theorem wrappedLinesOf_words (text : String) :
    (wrappedLinesOf text).flatMap wordsOf = (rawLinesOf text).flatMap wordsOf := by
  unfold wrappedLinesOf
  induction rawLinesOf text with
  | nil => rfl
  | cons line rest ih =>
    rw [List.flatMap_cons, List.flatMap_cons, List.flatMap_append, ih]
    by_cases h : 150 < line.length
    · simp only [h, if_true]
      rw [wrapLine_words]
    · simp [h]

theorem mem_jsTrim {c : Char} {l : List Char} (h : c ∈ jsTrim l) : c ∈ l := by
  unfold jsTrim at h
  have h1 := List.mem_reverse.mp h
  have h2 := List.Sublist.mem h1 (List.dropWhile_sublist _)
  have h3 := List.mem_reverse.mp h2
  exact List.Sublist.mem h3 (List.dropWhile_sublist _)

theorem mem_starRepl : ∀ (l : List Char) (c : Char), c ∈ starRepl l → c ≠ '*' := by
  intro l
  induction l with
  | nil => intro c hc; simp [starRepl] at hc
  | cons a rest ih =>
    intro c hc
    rw [starRepl] at hc
    by_cases h : a = '*'
    · simp only [h, if_true] at hc
      rcases List.mem_cons.mp hc with h2 | h2
      · subst h2; decide
      · rcases List.mem_cons.mp h2 with h3 | h3
        · subst h3; decide
        · rcases List.mem_cons.mp h3 with h4 | h4
          · subst h4; decide
          · rcases List.mem_cons.mp h4 with h5 | h5
            · subst h5; decide
            · rcases List.mem_cons.mp h5 with h6 | h6
              · subst h6; decide
              · exact ih c h6
    · simp only [h, if_false] at hc
      rcases List.mem_cons.mp hc with h2 | h2
      · subst h2; exact h
      · exact ih c h2

theorem foldRepl_mem : ∀ (sps : List Char) (ls : List (List Char)) (l : List Char) (c : Char),
    ' ' ∉ sps →
    l ∈ sps.foldl
      (fun ls2 sp => ls2.map (fun line => line.map (fun ch => if ch = sp then ' ' else ch))) ls →
    c ∈ l →
    c ∉ sps ∧ (c = ' ' ∨ ∃ l0, l0 ∈ ls ∧ c ∈ l0) := by
  intro sps
  induction sps with
  | nil =>
    intro ls l c _ hl hc
    exact ⟨by simp, Or.inr ⟨l, by simpa using hl, hc⟩⟩
  | cons sp sps2 ih =>
    intro ls l c hsp hl hc
    have hsp2 : ' ' ∉ sps2 := fun hm => hsp (List.mem_cons_of_mem sp hm)
    have hspne : sp ≠ ' ' := fun he => hsp (by simp [he])
    rw [List.foldl_cons] at hl
    have hres := ih (ls.map (fun line => line.map (fun ch => if ch = sp then ' ' else ch)))
      l c hsp2 hl hc
    rcases hres with ⟨hns, hdisj⟩
    rcases hdisj with hsp3 | ⟨l0, hl0, hcl0⟩
    · refine ⟨?_, Or.inl hsp3⟩
      intro hmem
      rcases List.mem_cons.mp hmem with he | he
      · exact hspne (hsp3 ▸ he.symm)
      · exact hns he
    · rcases List.mem_map.mp hl0 with ⟨l1, hl1, hmapeq⟩
      subst hmapeq
      rcases List.mem_map.mp hcl0 with ⟨ch, hch, hcheq⟩
      by_cases hc2 : ch = sp
      · have hcsp : c = ' ' := by rw [← hcheq]; simp [hc2]
        refine ⟨?_, Or.inl hcsp⟩
        intro hmem
        rcases List.mem_cons.mp hmem with he | he
        · exact hspne (hcsp ▸ he.symm)
        · exact hns he
      · have hceq : ch = c := by simpa [hc2] using hcheq
        subst hceq
        refine ⟨?_, Or.inr ⟨l1, hl1, hch⟩⟩
        intro hmem
        rcases List.mem_cons.mp hmem with he | he
        · exact hc2 he
        · exact hns he

/-- C8: comment normalisation.  (1) No emitted comment line contains a
literal `*` or any of the 24 irregular space code points (each `*` became
`&#42;`, each irregular space an ordinary one).  (2)/(3) The 150-column
wrapping pass splits only at word boundaries: reading the words of the
wrapped lines in order gives back exactly the words of the original lines,
so no word is ever split, lost or reordered.  (4) The spec's concrete
example: a description with a no-break space and a `*` renders with the
space replaced by an ordinary space and the asterisk by `&#42;`. -/
theorem c8_comment_normalization :
    (∀ text : String, ∀ l ∈ commentLinesL text, ∀ c ∈ l, c ≠ '*' ∧ c ∉ irregylarSpaces) ∧
    (∀ line : List Char, (wrapLine line).flatMap wordsOf = wordsOf line) ∧
    (∀ text : String, (wrappedLinesOf text).flatMap wordsOf = (rawLinesOf text).flatMap wordsOf) ∧
    commentLinesL "a\u00A0*b" = [['a', ' ', '&', '#', '4', '2', ';', 'b']] := by
  refine ⟨?_, wrapLine_words, wrappedLinesOf_words, by decide⟩
  intro text l hl c hc
  have hsp : ' ' ∉ irregylarSpaces := by decide
  unfold commentLinesL at hl
  have hres := foldRepl_mem irregylarSpaces
    ((wrappedLinesOf text).map (fun x => jsTrim (starRepl x))) l c hsp hl hc
  rcases hres with ⟨hnotirr, hdisj⟩
  refine ⟨?_, hnotirr⟩
  rcases hdisj with hspc | ⟨l0, hl0, hcl0⟩
  · subst hspc; decide
  · rcases List.mem_map.mp hl0 with ⟨w, _hw, hweq⟩
    subst hweq
    exact mem_starRepl w c (mem_jsTrim hcl0)

/-- Witness for C8: applies the normalisation theorem to the comment text
`x*y` (whose emitted line contains `&` from the `&#42;` escape) and the
word-preservation part to a concrete two-word line. -/
theorem c8_witness :
    ('&' ≠ '*' ∧ '&' ∉ irregylarSpaces) ∧
    (wrapLine ("ab cd".data)).flatMap wordsOf = wordsOf ("ab cd".data) :=
  ⟨c8_comment_normalization.1 "x*y" ['x', '&', '#', '4', '2', ';', 'y'] (by decide) '&'
      (by decide),
    c8_comment_normalization.2.1 ("ab cd".data)⟩

/-! ## Closure lemmas for `SeenOk` -/

theorem seenOk_writeA (chunk : String) : SeenOk (writeA chunk) := by
  intro s
  exact ⟨fun _ => rfl, fun x hx => hx⟩

theorem seenOk_skipA : SeenOk skipA := by
  intro s
  exact ⟨fun _ => rfl, fun x hx => hx⟩

theorem seenOk_errA (e : GErr) : SeenOk (errA e) := by
  intro s
  exact ⟨fun _ => rfl, fun x hx => hx⟩

theorem seenOk_indentIncA : SeenOk indentIncA := by
  intro s
  exact ⟨fun _ => rfl, fun x hx => hx⟩

theorem seenOk_indentDecA : SeenOk indentDecA := by
  intro s
  exact ⟨fun _ => rfl, fun x hx => hx⟩

theorem seenOk_startIndentedLineA (chunk : String) : SeenOk (startIndentedLineA chunk) := by
  intro s
  exact ⟨fun _ => rfl, fun x hx => hx⟩

theorem seenOk_writeLineA (chunk : String) : SeenOk (writeLineA chunk) := by
  intro s
  exact ⟨fun _ => rfl, fun x hx => hx⟩

theorem seenOk_endLineA (chunk : String) : SeenOk (endLineA chunk) := by
  intro s
  exact ⟨fun _ => rfl, fun x hx => hx⟩

theorem seenOk_beginNewLineA (chunk : String) : SeenOk (beginNewLineA chunk) := by
  intro s
  exact ⟨fun _ => rfl, fun x hx => hx⟩

theorem seenOk_aseq {a b : Act} (ha : SeenOk a) (hb : SeenOk b) : SeenOk (aseq a b) := by
  intro s
  rcases hra : a s with ⟨s1, e1⟩
  cases e1 with
  | none =>
    have haseq : aseq a b s = b s1 := by rw [aseq, hra]
    have haeq : s1.seen = s.seen := by
      have := (ha s).1
      rw [hra] at this
      exact this rfl
    constructor
    · intro hsucc
      rw [haseq] at hsucc ⊢
      rw [(hb s1).1 hsucc, haeq]
    · intro x hx
      rw [haseq]
      apply (hb s1).2
      rw [haeq]
      exact hx
  | some e =>
    have haseq : aseq a b s = (s1, some e) := by rw [aseq, hra]
    constructor
    · intro hsucc
      rw [haseq] at hsucc
      simp at hsucc
    · intro x hx
      rw [haseq]
      have := (ha s).2 x hx
      rw [hra] at this
      exact this

theorem seenOk_scopeA {ctx : Act} (h : SeenOk ctx) (startTag endTag : String) :
    SeenOk (scopeA ctx startTag endTag) := by
  unfold scopeA
  exact seenOk_aseq (seenOk_writeA _)
    (seenOk_aseq seenOk_indentIncA
      (seenOk_aseq h (seenOk_aseq seenOk_indentDecA
        (seenOk_aseq (seenOk_writeA _) (seenOk_startIndentedLineA _)))))

theorem stub_seenOk : ∀ fuel : Nat,
    (∀ api p, SeenOk (writePropertyValue fuel api p)) ∧
    (∀ api it, SeenOk (writeArray fuel api it)) ∧
    (∀ api ob, SeenOk (writeObject fuel api ob)) ∧
    (∀ api nm, SeenOk (writeSchemaRef fuel api nm)) ∧
    (∀ api record, SeenOk (writeProperties fuel api record)) ∧
    (∀ api l, SeenOk (writePropsGo fuel api l)) := by
  intro fuel
  induction fuel with
  | zero =>
    have hA : ∀ api p, SeenOk (writePropertyValue 0 api p) := by
      intro api p
      rw [writePropertyValue]
      exact seenOk_errA _
    have hB : ∀ api it, SeenOk (writeArray 0 api it) := by
      intro api it
      rw [writeArray]
      exact seenOk_errA _
    have hC : ∀ api ob, SeenOk (writeObject 0 api ob) := by
      intro api ob
      rw [writeObject]
      exact seenOk_errA _
    have hD : ∀ api nm, SeenOk (writeSchemaRef 0 api nm) := by
      intro api nm
      rw [writeSchemaRef]
      exact seenOk_errA _
    have hE : ∀ api record, SeenOk (writeProperties 0 api record) := by
      intro api record
      rw [writeProperties]
      exact seenOk_errA _
    have hF : ∀ api l, SeenOk (writePropsGo 0 api l) := by
      intro api l
      induction l with
      | nil =>
        rw [writePropsGo]
        exact seenOk_skipA
      | cons p rest ihl =>
        obtain ⟨nm, pr⟩ := p
        rw [writePropsGo]
        refine seenOk_aseq (seenOk_beginNewLineA _)
          (seenOk_aseq ?_ (seenOk_aseq (seenOk_writeA _) ihl))
        split
        · exact hC api pr
        · split
          · exact hD api _
          · exact hA api pr
    exact ⟨hA, hB, hC, hD, hE, hF⟩
  | succ n ih =>
    obtain ⟨ihA, ihB, ihC, ihD, ihE, ihF⟩ := ih
    have hA : ∀ api p, SeenOk (writePropertyValue (n + 1) api p) := by
      intro api p
      rw [writePropertyValue]
      split
      · exact seenOk_writeA _
      · exact seenOk_writeA _
      · exact seenOk_writeA _
      · exact seenOk_writeA _
      · split
        · exact seenOk_errA _
        · exact ihB api _
      · exact ihC api _
      · exact seenOk_writeA _
      · exact seenOk_errA _
    have hB : ∀ api it, SeenOk (writeArray (n + 1) api it) := by
      intro api it
      rw [writeArray]
      intro s
      simp only []
      split
      · split
        · exact (seenOk_writeA _) s
        · exact (seenOk_scopeA (seenOk_aseq (seenOk_beginNewLineA _) (ihD api _)) "[" "]") s
      · exact (seenOk_scopeA (seenOk_aseq (seenOk_beginNewLineA _) (ihA api _)) "[" "]") s
    have hC : ∀ api ob, SeenOk (writeObject (n + 1) api ob) := by
      intro api ob
      rw [writeObject]
      intro s
      simp only []
      split
      · exact (seenOk_writeA _) s
      · split
        · exact (seenOk_scopeA (ihE api _) "\x7b" "\x7d") s
        · split
          · refine (seenOk_scopeA (seenOk_aseq (seenOk_beginNewLineA _) ?_) "\x7b" "\x7d") s
            split
            · exact ihD api _
            · exact ihA api _
          · exact (ihA api ob) s
    have hD : ∀ api nm, SeenOk (writeSchemaRef (n + 1) api nm) := by
      intro api nm
      rw [writeSchemaRef]
      intro s
      simp only []
      by_cases hc : s.seen.contains nm = true
      · simp only [hc, if_true]
        exact (seenOk_writeA _) s
      · have hc2 : s.seen.contains nm = false := by
          cases hv : s.seen.contains nm
          · rfl
          · exact absurd hv hc
        simp only [hc2, Bool.false_eq_true, if_false]
        split
        · exact ⟨fun h => Option.noConfusion h, fun x hx => hx⟩
        · split
          · exact ⟨fun h => Option.noConfusion h, fun x hx => hx⟩
          · rename_i ss hss schema hschema
            rcases hwo : writeObject n api schema
                { s with seen := if s.seen.contains nm = true then s.seen else nm :: s.seen }
              with ⟨s2, e2⟩
            have hsup := ((ihC api schema)
              { s with seen := if s.seen.contains nm = true then s.seen else nm :: s.seen }).2
            have hpres := ((ihC api schema)
              { s with seen := if s.seen.contains nm = true then s.seen else nm :: s.seen }).1
            rw [hwo] at hsup hpres
            simp only [hc2, Bool.false_eq_true, if_false] at hsup hpres hwo
            rw [hwo]
            cases e2 with
            | none =>
              have hseen : s2.seen = nm :: s.seen := hpres rfl
              constructor
              · intro _
                simp only [hseen, List.erase_cons_head]
              · intro x hx
                simp only [hseen, List.erase_cons_head]
                exact hx
            | some e =>
              constructor
              · intro h
                exact Option.noConfusion h
              · intro x hx
                exact hsup x (List.mem_cons_of_mem nm hx)
    have hE : ∀ api record, SeenOk (writeProperties (n + 1) api record) := by
      intro api record
      rw [writeProperties]
      exact ihF api _
    have hF : ∀ api l, SeenOk (writePropsGo (n + 1) api l) := by
      intro api l
      induction l with
      | nil =>
        rw [writePropsGo]
        exact seenOk_skipA
      | cons p rest ihl =>
        obtain ⟨nm, pr⟩ := p
        rw [writePropsGo]
        refine seenOk_aseq (seenOk_beginNewLineA _)
          (seenOk_aseq ?_ (seenOk_aseq (seenOk_writeA _) ihl))
        split
        · exact hC api pr
        · split
          · exact hD api _
          · exact hA api pr
    exact ⟨hA, hB, hC, hD, hE, hF⟩

/-- C3 (amended): during stub-value generation, `writeSchemaRef` removes
the schema name it added on every NORMAL return — after a successful
expansion the guard set is exactly what it was before, so the name can be
expanded again in a sibling branch — but when the expansion throws, the
name is NOT removed and remains in the guard set (the source has no
try/finally around the recursion). -/
theorem c3_guard_set_behaviour (fuel : Nat) (api : RestDescription) (name : String) (s : WSt) :
    (∀ s2, writeSchemaRef fuel api name s = (s2, none) → s2.seen = s.seen) ∧
    (∀ s2 e, writeSchemaRef (fuel + 1) api name s = (s2, some e) →
      s.seen.contains name = false →
      (∃ ss schema, api.schemas = some ss ∧ recLookup name ss = some schema) →
      name ∈ s2.seen) := by
  constructor
  · intro s2 hrun
    have h := ((stub_seenOk fuel).2.2.2.1 api name s).1
    rw [hrun] at h
    exact h rfl
  · rintro s2 e hrun hcont ⟨ss, schema, hss, hlook⟩
    rw [writeSchemaRef] at hrun
    simp only [hcont, Bool.false_eq_true, if_false, hss, hlook] at hrun
    rcases hwo : writeObject fuel api schema { s with seen := name :: s.seen } with ⟨s3, e3⟩
    rw [hwo] at hrun
    cases e3 with
    | none => simp at hrun
    | some e3 =>
      have hsup := ((stub_seenOk fuel).2.2.1 api schema { s with seen := name :: s.seen }).2
      rw [hwo] at hsup
      have hmem := hsup name (List.mem_cons_self name s.seen)
      have hs2 : s3 = s2 := congrArg Prod.fst hrun
      rw [← hs2]
      exact hmem

/-- Counterexample to C3 as stated: expanding schema `A`, whose body
references the missing schema `B`, throws — and `A` is left in the guard
set.  The set was empty before the expansion and is `["A"]` after it. -/
theorem c3_counterexample :
    (writeSchemaRef 10
        (RestDescription.mk "x" "v" "t" "o" "d"
          (some [("A", JsonSchema.mk (some "object") none
            (some [("x", JsonSchema.mk none none none none (some "B") none none none none)])
            none none none none none (some "A"))]) none none)
        "A" ⟨"", 0, []⟩).1.seen = ["A"] ∧
    (writeSchemaRef 10
        (RestDescription.mk "x" "v" "t" "o" "d"
          (some [("A", JsonSchema.mk (some "object") none
            (some [("x", JsonSchema.mk none none none none (some "B") none none none none)])
            none none none none none (some "A"))]) none none)
        "A" ⟨"", 0, []⟩).2 =
      some (GErr.fail "Attempted to generate stub for unknown schema 'B'") := by
  constructor <;>
    simp [writeSchemaRef, writeObject, writeProperties, writePropsGo, writePropertyValue,
      scopeA, aseq, beginNewLineA, startIndentedLineA, writeA, writeLineA, skipA, errA,
      indentIncA, indentDecA, sortedEntries, sortKeysJs, recKeys, recLookup, strLtJs,
      charListLt, List.insertionSort, List.orderedInsert, formatPropertyName,
      JsonSchema.type, JsonSchema.ref, JsonSchema.properties, JsonSchema.additionalProperties,
      RestDescription.schemas, tabs, tabString, isEmptySchema]

/-- Witness for C3's amended theorem: a successful expansion of an
empty-bodied object schema restores the empty guard set, and the throwing
expansion of the counterexample leaves `A` in the set. -/
theorem c3_witness :
    (writeSchemaRef 4
        (RestDescription.mk "x" "v" "t" "o" "d"
          (some [("A", JsonSchema.mk (some "object") none (some []) none none none none none
            (some "A"))]) none none)
        "A" ⟨"", 0, []⟩).1.seen = ([] : List String) ∧
    "A" ∈ (writeSchemaRef 10
        (RestDescription.mk "x" "v" "t" "o" "d"
          (some [("A", JsonSchema.mk (some "object") none
            (some [("x", JsonSchema.mk none none none none (some "B") none none none none)])
            none none none none none (some "A"))]) none none)
        "A" ⟨"", 0, []⟩).1.seen := by
  constructor
  · have hrun : writeSchemaRef 4
        (RestDescription.mk "x" "v" "t" "o" "d"
          (some [("A", JsonSchema.mk (some "object") none (some []) none none none none none
            (some "A"))]) none none)
        "A" ⟨"", 0, []⟩ = (⟨"\x7b\n\x7d", 0, []⟩, none) := by
      simp [writeSchemaRef, writeObject, writeProperties, writePropsGo, writePropertyValue,
        scopeA, aseq, beginNewLineA, startIndentedLineA, writeA, writeLineA, skipA, errA,
        indentIncA, indentDecA, sortedEntries, sortKeysJs, recKeys, recLookup, strLtJs,
        charListLt, List.insertionSort, List.orderedInsert, formatPropertyName,
        JsonSchema.type, JsonSchema.ref, JsonSchema.properties, JsonSchema.additionalProperties,
        RestDescription.schemas, tabs, tabString, isEmptySchema, newLineStr]
    exact (c3_guard_set_behaviour 4
        (RestDescription.mk "x" "v" "t" "o" "d"
          (some [("A", JsonSchema.mk (some "object") none (some []) none none none none none
            (some "A"))]) none none)
        "A" ⟨"", 0, []⟩).1
      (writeSchemaRef 4
        (RestDescription.mk "x" "v" "t" "o" "d"
          (some [("A", JsonSchema.mk (some "object") none (some []) none none none none none
            (some "A"))]) none none)
        "A" ⟨"", 0, []⟩).1 (by rw [hrun])
  · have hrun : writeSchemaRef 10
        (RestDescription.mk "x" "v" "t" "o" "d"
          (some [("A", JsonSchema.mk (some "object") none
            (some [("x", JsonSchema.mk none none none none (some "B") none none none none)])
            none none none none none (some "A"))]) none none)
        "A" ⟨"", 0, []⟩ = (⟨"\x7b\n    x: ", 1, ["A"]⟩,
          some (GErr.fail "Attempted to generate stub for unknown schema 'B'")) := by
      simp [writeSchemaRef, writeObject, writeProperties, writePropsGo, writePropertyValue,
        scopeA, aseq, beginNewLineA, startIndentedLineA, writeA, writeLineA, skipA, errA,
        indentIncA, indentDecA, sortedEntries, sortKeysJs, recKeys, recLookup, strLtJs,
        charListLt, List.insertionSort, List.orderedInsert, formatPropertyName,
        JsonSchema.type, JsonSchema.ref, JsonSchema.properties, JsonSchema.additionalProperties,
        RestDescription.schemas, tabs, tabString, isEmptySchema, newLineStr]
    exact (c3_guard_set_behaviour 9
        (RestDescription.mk "x" "v" "t" "o" "d"
          (some [("A", JsonSchema.mk (some "object") none
            (some [("x", JsonSchema.mk none none none none (some "B") none none none none)])
            none none none none none (some "A"))]) none none)
        "A" ⟨"", 0, []⟩).2
      (writeSchemaRef 10
        (RestDescription.mk "x" "v" "t" "o" "d"
          (some [("A", JsonSchema.mk (some "object") none
            (some [("x", JsonSchema.mk none none none none (some "B") none none none none)])
            none none none none none (some "A"))]) none none)
        "A" ⟨"", 0, []⟩).1
      (GErr.fail "Attempted to generate stub for unknown schema 'B'") (by rw [hrun]) rfl
      ⟨_, _, rfl, rfl⟩

/-! ## The bare-object loop of the stub generator (claim C4) -/

theorem bare_object_loop : ∀ (fuel : Nat) (api : RestDescription) (s : WSt),
    writeObject fuel api
        (JsonSchema.mk (some "object") none none none none none none none none) s =
      (s, some GErr.outOfFuel) ∧
    writePropertyValue fuel api
        (JsonSchema.mk (some "object") none none none none none none none none) s =
      (s, some GErr.outOfFuel) := by
  intro fuel
  induction fuel with
  | zero =>
    intro api s
    constructor
    · rw [writeObject]
      rfl
    · rw [writePropertyValue]
      rfl
  | succ n ih =>
    intro api s
    constructor
    · rw [writeObject]
      exact (ih api s).2
    · rw [writePropertyValue]
      exact (ih api s).1

theorem writeObject_bare_loop (fuel : Nat) (api : RestDescription) (s : WSt) :
    writeObject fuel api
        (JsonSchema.mk (some "object") none none none none none none none none) s =
      (s, some GErr.outOfFuel) :=
  (bare_object_loop fuel api s).1

/-- C4 (code bug): on the self-referential schema `A` — `A` has a property
`b` referencing `A`, plus a bare `{type: "object"}` property `a` — stub
value synthesis does NOT terminate: for every fuel bound the run still
ends in `outOfFuel`, because `writeObject` and `writePropertyValue` call
each other forever on the bare object node (a stack overflow in the
source).  The cycle guard never gets a chance to emit its `undefined`
placeholder for the inner expansion. -/
theorem c4_nontermination (fuel : Nat) :
    (writeSchemaRef fuel
        (RestDescription.mk "x" "v" "t" "o" "d"
          (some [("A", JsonSchema.mk (some "object") none
            (some [("a", JsonSchema.mk (some "object") none none none none none none none none),
                   ("b", JsonSchema.mk none none none none (some "A") none none none none)])
            none none none none none (some "A"))]) none none)
        "A" ⟨"", 0, []⟩).2 = some GErr.outOfFuel := by
  rcases fuel with _ | _ | _ | n
  · rw [writeSchemaRef]
    rfl
  · simp [writeSchemaRef, writeObject, errA, recLookup, JsonSchema.properties,
      JsonSchema.additionalProperties, RestDescription.schemas]
  · simp [writeSchemaRef, writeObject, writeProperties, scopeA, aseq, writeA, errA,
      indentIncA, indentDecA, startIndentedLineA, recLookup, JsonSchema.properties,
      JsonSchema.additionalProperties, RestDescription.schemas]
  · simp [writeSchemaRef, writeObject, writeProperties, writePropsGo, writeObject_bare_loop,
      scopeA, aseq, writeA, errA, beginNewLineA, startIndentedLineA, indentIncA, indentDecA,
      sortedEntries, sortKeysJs, recKeys, recLookup, strLtJs, charListLt,
      List.insertionSort, List.orderedInsert, formatPropertyName, JsonSchema.type,
      JsonSchema.ref, JsonSchema.properties, JsonSchema.additionalProperties,
      RestDescription.schemas, tabs, tabString]

/-! ## Closure lemmas for `OutExt` (claim C9) -/

theorem outExt_writeA (chunk : String) : OutExt (writeA chunk) := by
  intro s
  exact ⟨chunk, rfl⟩

theorem outExt_skipA : OutExt skipA := by
  intro s
  exact ⟨"", (String.append_empty s.out).symm⟩

theorem outExt_errA (e : GErr) : OutExt (errA e) := by
  intro s
  exact ⟨"", (String.append_empty s.out).symm⟩

theorem outExt_indentIncA : OutExt indentIncA := by
  intro s
  exact ⟨"", (String.append_empty s.out).symm⟩

theorem outExt_indentDecA : OutExt indentDecA := by
  intro s
  exact ⟨"", (String.append_empty s.out).symm⟩

theorem outExt_startIndentedLineA (chunk : String) : OutExt (startIndentedLineA chunk) := by
  intro s
  exact ⟨tabs s.indent ++ chunk, rfl⟩

theorem outExt_writeLineA (chunk : String) : OutExt (writeLineA chunk) := by
  intro s
  exact ⟨tabs s.indent ++ (chunk ++ newLineStr), rfl⟩

theorem outExt_beginLineA (chunk : String) : OutExt (beginLineA chunk) :=
  outExt_startIndentedLineA chunk

theorem outExt_aseq {a b : Act} (ha : OutExt a) (hb : OutExt b) : OutExt (aseq a b) := by
  intro s
  rcases hra : a s with ⟨s1, e1⟩
  rcases ha s with ⟨t1, ht1⟩
  rw [hra] at ht1
  cases e1 with
  | none =>
    rcases hb s1 with ⟨t2, ht2⟩
    refine ⟨t1 ++ t2, ?_⟩
    have : aseq a b s = b s1 := by rw [aseq, hra]
    rw [this, ht2, ht1, String.append_assoc]
  | some e =>
    refine ⟨t1, ?_⟩
    have : aseq a b s = (s1, some e) := by rw [aseq, hra]
    rw [this]
    exact ht1

theorem outExt_endLineA (chunk : String) : OutExt (endLineA chunk) :=
  outExt_aseq (outExt_writeA chunk) (outExt_writeA newLineStr)

theorem outExt_beginNewLineA (chunk : String) : OutExt (beginNewLineA chunk) :=
  outExt_aseq (outExt_writeA newLineStr) (outExt_startIndentedLineA chunk)

theorem outExt_bracesA (text : String) {ctx : Act} (h : OutExt ctx) :
    OutExt (bracesA text ctx) :=
  outExt_aseq (outExt_writeLineA _)
    (outExt_aseq outExt_indentIncA
      (outExt_aseq h (outExt_aseq outExt_indentDecA (outExt_writeLineA _))))

theorem outExt_interfaceA (name : String) {ctx : Act} (h : OutExt ctx) :
    OutExt (interfaceA name ctx) :=
  outExt_bracesA _ h

theorem outExt_anonymysTypeA {ctx : Act} (h : OutExt ctx) : OutExt (anonymysTypeA ctx) :=
  outExt_aseq (outExt_endLineA _)
    (outExt_aseq outExt_indentIncA
      (outExt_aseq h (outExt_aseq outExt_indentDecA (outExt_startIndentedLineA _))))

theorem outExt_scopeA {ctx : Act} (h : OutExt ctx) (startTag endTag : String) :
    OutExt (scopeA ctx startTag endTag) :=
  outExt_aseq (outExt_writeA _)
    (outExt_aseq outExt_indentIncA
      (outExt_aseq h (outExt_aseq outExt_indentDecA
        (outExt_aseq (outExt_writeA _) (outExt_startIndentedLineA _)))))

theorem outExt_commentMultiGo (avoid : Bool) (total : Nat) :
    ∀ (ls : List (List Char)) (i : Nat), OutExt (commentMultiGo avoid total ls i) := by
  intro ls
  induction ls with
  | nil => intro i; rw [commentMultiGo]; exact outExt_skipA
  | cons line rest ih =>
    intro i
    rw [commentMultiGo]
    apply outExt_aseq ?_ (ih (i + 1))
    rcases avoid with _ | _
    · exact outExt_writeLineA _
    · by_cases hi : i = total - 1
      · simp only [hi, if_true]
        exact outExt_writeLineA _
      · simp only [hi, if_false]
        exact outExt_beginLineA _

theorem outExt_commentA (text : String) (avoid : Bool) : OutExt (commentA text avoid) := by
  rw [commentA]
  by_cases h : text = ""
  · simp only [h, if_true]
    exact outExt_skipA
  · simp only [h, if_false]
    rcases commentLinesL text with _ | ⟨l, ls⟩
    · exact outExt_skipA
    · rcases ls with _ | ⟨l2, ls2⟩
      · rcases avoid with _ | _
        · exact outExt_writeLineA _
        · exact outExt_beginLineA _
      · exact outExt_aseq (outExt_writeLineA _)
          (outExt_aseq (outExt_commentMultiGo _ _ _ _) (outExt_writeLineA _))

theorem outExt_optCommentA (d : Option String) : OutExt (optCommentA d) := by
  rcases d with _ | t
  · exact outExt_skipA
  · by_cases h : t = ""
    · show OutExt (if t = "" then skipA else commentA (formatComment t) false)
      simp only [h, if_true]
      exact outExt_skipA
    · show OutExt (if t = "" then skipA else commentA (formatComment t) false)
      simp only [h, if_false]
      exact outExt_commentA _ _

theorem outExt_writeSV {ty : StrOrCb} (h : ∀ cb, ty = Sum.inr cb → OutExt cb) :
    OutExt (writeSV ty) := by
  rcases ty with t | cb
  · exact outExt_writeA t
  · exact h cb rfl

theorem outExt_propertyA (name : String) {ty : StrOrCb} (required : Bool)
    (h : ∀ cb, ty = Sum.inr cb → OutExt cb) : OutExt (propertyA name ty required) := by
  rcases ty with t | cb
  · exact outExt_writeLineA _
  · show OutExt (aseq
      (startIndentedLineA (formatPropertyName name ++ (if required then "" else "?") ++ ": "))
      (aseq cb (endLineA ";")))
    exact outExt_aseq (outExt_startIndentedLineA _)
      (outExt_aseq (h cb rfl) (outExt_endLineA _))

theorem outExt_methodParamsGo (singleLine : Bool) (total : Nat) :
    ∀ (params : List (String × StrOrCb)) (i : Nat),
      (∀ p ∈ params, ∀ cb, p.2 = Sum.inr cb → OutExt cb) →
      OutExt (methodParamsGo singleLine total params i) := by
  intro params
  induction params with
  | nil => intro i _; exact outExt_skipA
  | cons p rest ih =>
    intro i hcb
    obtain ⟨pn, ty⟩ := p
    show OutExt (aseq (writeA (pn ++ ": "))
      (aseq (writeSV ty)
        (aseq
          (if i + 1 < total then
            aseq (writeA ",") (if singleLine then writeA " " else beginNewLineA "")
          else skipA)
          (methodParamsGo singleLine total rest (i + 1)))))
    refine outExt_aseq (outExt_writeA _)
      (outExt_aseq (outExt_writeSV (hcb (pn, ty) (List.mem_cons_self _ _)))
        (outExt_aseq ?_ (ih (i + 1) (fun q hq => hcb q (List.mem_cons_of_mem _ hq)))))
    by_cases hlast : i + 1 < total
    · simp only [hlast, if_true]
      refine outExt_aseq (outExt_writeA _) ?_
      rcases singleLine with _ | _
      · exact outExt_beginNewLineA _
      · exact outExt_writeA _
    · simp only [hlast, if_false]
      exact outExt_skipA

theorem outExt_methodA (name : String) (params : List (String × StrOrCb))
    (returnType : String) (singleLine : Bool)
    (h : ∀ p ∈ params, ∀ cb, p.2 = Sum.inr cb → OutExt cb) :
    OutExt (methodA name params returnType singleLine) :=
  outExt_aseq (outExt_startIndentedLineA _)
    (outExt_aseq (outExt_methodParamsGo singleLine params.length params 0 h)
      (outExt_aseq (outExt_writeA _) (outExt_endLineA _)))

theorem outExt_forEachOrderedGo {T : Type} (f : T → String → Nat → Act)
    (h : ∀ v k i, OutExt (f v k i)) :
    ∀ (l : List (String × T)) (i : Nat), OutExt (forEachOrderedGo f l i) := by
  intro l
  induction l with
  | nil => intro i; exact outExt_skipA
  | cons p rest ih =>
    intro i
    obtain ⟨k, v⟩ := p
    show OutExt (aseq (f v k i) (forEachOrderedGo f rest (i + 1)))
    exact outExt_aseq (h v k i) (ih (i + 1))

theorem outExt_forEachOrderedA {T : Type} (record : Option (List (String × T)))
    (f : T → String → Nat → Act) (h : ∀ v k i, OutExt (f v k i)) :
    OutExt (forEachOrderedA record f) := by
  rcases record with _ | r
  · exact outExt_skipA
  · exact outExt_forEachOrderedGo f h _ _

theorem outExt_getType : ∀ (fuel : Nat) (t : JsonSchema)
    (schemas : Option (List (String × JsonSchema))) (cb : Act),
    getType fuel t schemas = Except.ok (Sum.inr cb) → OutExt cb := by
  intro fuel
  induction fuel with
  | zero =>
    intro t schemas cb h
    rw [getType] at h
    exact Except.noConfusion h
  | succ n ih =>
    intro t schemas cb h
    rw [getType] at h
    split at h
    · split at h
      · exact Except.noConfusion h
      · split at h
        · exact Except.noConfusion h
        · simp at h
        · rename_i child hchild
          injection h with h2
          injection h2 with h3
          subst h3
          exact outExt_aseq (outExt_writeA _)
            (outExt_aseq (ih _ _ _ hchild) (outExt_writeA _))
    · split at h
      · injection h with h2
        injection h2 with h3
        subst h3
        apply outExt_anonymysTypeA
        apply outExt_aseq
        · apply outExt_forEachOrderedA
          intro v k i
          apply outExt_aseq (outExt_optCommentA _)
          intro s
          rcases hgt : getType n v schemas with e | ty
          · simp only [hgt]
            exact ⟨"", (String.append_empty s.out).symm⟩
          · simp only [hgt]
            have hout : OutExt (propertyA k ty (v.required.getD false)) := by
              rcases ty with tstr | cb2
              · exact outExt_propertyA k _ (fun cb3 hcb3 => Sum.noConfusion hcb3)
              · refine outExt_propertyA k _ ?_
                intro cb3 hcb3
                injection hcb3 with h4
                subst h4
                exact ih _ _ _ hgt
            exact hout s
        · split
          · rename_i ap hap
            intro s
            rcases hgt : getType n ap schemas with e | ty
            · simp only [hgt]
              exact ⟨"", (String.append_empty s.out).symm⟩
            · simp only [hgt]
              have hout : OutExt (propertyA "[key: string]" ty true) := by
                rcases ty with tstr | cb2
                · exact outExt_propertyA _ _ (fun cb3 hcb3 => Sum.noConfusion hcb3)
                · refine outExt_propertyA _ _ ?_
                  intro cb3 hcb3
                  injection hcb3 with h4
                  subst h4
                  exact ih _ _ _ hgt
              exact hout s
          · exact outExt_skipA
      · split at h
        · injection h with h2
          injection h2 with h3
          subst h3
          intro s
          split
          · exact ⟨"", (String.append_empty s.out).symm⟩
          · rename_i ap hap
            rcases hgt : getType n ap schemas with e | ty
            · simp only [hgt]
              exact ⟨"", (String.append_empty s.out).symm⟩
            · simp only [hgt]
              have hws : OutExt (writeSV ty) := by
                rcases ty with tstr | cb2
                · exact outExt_writeA _
                · refine outExt_writeSV ?_
                  intro cb3 hcb3
                  injection hcb3 with h4
                  subst h4
                  exact ih _ _ _ hgt
              exact (outExt_aseq (outExt_writeA _)
                (outExt_aseq hws (outExt_writeA _))) s
        · split at h
          · simp at h
          · split at h
            · split at h
              · exact Except.noConfusion h
              · split at h
                · exact Except.noConfusion h
                · split at h
                  · simp at h
                  · simp at h
            · exact Except.noConfusion h

theorem outExt_requestParamCb (fuel : Nat) (parameters : List (String × JsonSchema))
    (schemas : Option (List (String × JsonSchema))) (method : RestMethod) :
    OutExt (requestParamCb fuel parameters schemas method) := by
  rw [requestParamCb]
  apply outExt_anonymysTypeA
  apply outExt_forEachOrderedA
  intro v k i
  apply outExt_aseq (outExt_optCommentA _)
  intro s
  rcases hgt : getType fuel v schemas with e | ty
  · simp only [hgt]
    exact ⟨"", (String.append_empty s.out).symm⟩
  · simp only [hgt]
    have hout : OutExt (propertyA k ty (v.required.getD false)) := by
      rcases ty with tstr | cb2
      · exact outExt_propertyA k _ (fun cb3 hcb3 => Sum.noConfusion hcb3)
      · refine outExt_propertyA k _ ?_
        intro cb3 hcb3
        injection hcb3 with h4
        subst h4
        exact outExt_getType fuel _ _ _ hgt
    exact hout s

theorem outExt_methodTail (fuel : Nat) (parameters : List (String × JsonSchema))
    (schemas : Option (List (String × JsonSchema))) (method : RestMethod)
    (requestBody : List (String × StrOrCb))
    (hrb : ∀ p ∈ requestBody, ∀ cb, p.2 = Sum.inr cb → OutExt cb) :
    OutExt (methodTail fuel parameters schemas method requestBody) := by
  unfold methodTail
  rcases hid : method.id with _ | mid
  · simp only [hid]
    intro s
    exact ⟨"", (String.append_empty s.out).symm⟩
  · simp only [hid]
    rcases hret : getMethodReturn method schemas with e | ret
    · simp only [hret]
      intro s
      exact ⟨"", (String.append_empty s.out).symm⟩
    · simp only [hret]
      refine outExt_methodA (getName mid) _ ret false ?_
      intro p hp cb hcb
      rcases List.mem_cons.mp hp with h1 | h1
      · rw [h1] at hcb
        injection hcb with h2
        subst h2
        exact outExt_requestParamCb fuel parameters schemas method
      · exact hrb p h1 cb hcb

theorem outExt_methodEntryAct (fuel : Nat) (parameters : List (String × JsonSchema))
    (schemas : Option (List (String × JsonSchema))) (method : RestMethod) :
    OutExt (methodEntryAct fuel parameters schemas method) := by
  unfold methodEntryAct
  apply outExt_aseq (outExt_optCommentA _)
  rcases hreq : (match method.request with
                 | some r => r.ref
                 | none => none : Option String) with _ | sn
  · simp only [hreq]
    exact outExt_methodTail fuel parameters schemas method []
      (fun p hp => absurd hp (List.not_mem_nil p))
  · simp only [hreq]
    rcases schemas with _ | ss
    · intro s0
      exact ⟨"", (String.append_empty s0.out).symm⟩
    · rcases hlook : recLookup sn ss with _ | schema
      · simp only [hlook]
        intro s0
        exact ⟨"", (String.append_empty s0.out).symm⟩
      · simp only [hlook]
        refine outExt_methodTail fuel parameters (some ss) method _ ?_
        intro p hp cb hcb
        rcases List.mem_cons.mp hp with h1 | h1
        · rw [h1] at hcb
          exact Sum.noConfusion hcb
        · exact absurd h1 (List.not_mem_nil p)

theorem outExt_writeResources : ∀ (fuel : Nat)
    (resources : Option (List (String × RestResource)))
    (parameters : List (String × JsonSchema))
    (schemas : Option (List (String × JsonSchema))),
    OutExt (writeResources fuel resources parameters schemas) := by
  intro fuel
  induction fuel with
  | zero =>
    intro resources parameters schemas
    rw [writeResources]
    exact outExt_errA _
  | succ n ih =>
    intro resources parameters schemas
    rw [writeResources]
    apply outExt_forEachOrderedA
    intro resource resourceName i
    apply outExt_aseq (ih _ _ _)
    apply outExt_interfaceA
    apply outExt_aseq
    · apply outExt_forEachOrderedA
      intro m nm j
      exact outExt_methodEntryAct n parameters schemas m
    · apply outExt_forEachOrderedA
      intro child cn j
      exact outExt_propertyA cn true (fun cb3 hcb3 => Sum.noConfusion hcb3)

theorem aseq_skipA_right (a : Act) (s : WSt) : aseq a skipA s = a s := by
  rw [aseq]
  rcases ha : a s with ⟨s1, e1⟩
  cases e1
  · rfl
  · rfl

theorem sortedEntries_singleton {T : Type} (k : String) (v : T) :
    sortedEntries [(k, v)] = [(k, v)] := by
  simp [sortedEntries, sortKeysJs, recKeys, recLookup, List.insertionSort, List.orderedInsert]

/-- C9: for every resource entry, `writeResources` first runs itself on
the nested resources (emitting every child interface) and only then emits
the parent's interface body (first conjunct); consequently the nested
resources' whole output sits before anything of the parent interface in
the buffer (second conjunct).  Inside the parent's body, one property per
child resource is emitted, typed by the child's interface name (third
conjunct), which is derived as `Capitalize(resourceName) + "Resource"`
(fourth conjunct, sample instance). -/
theorem c9_nested_resources (fuel : Nat) (n : String) (r : RestResource)
    (params : List (String × JsonSchema)) (schemas : Option (List (String × JsonSchema)))
    (s : WSt) :
    writeResources (fuel + 1) (some [(n, r)]) params schemas s =
      aseq (writeResources fuel r.resources params schemas)
        (interfaceA (getResourceTypeName n)
          (aseq
            (forEachOrderedA r.methods (fun method _name _i =>
              methodEntryAct fuel params schemas method))
            (forEachOrderedA r.resources (fun _child cn _ =>
              propertyA cn (Sum.inl (getResourceTypeName cn)) true)))) s ∧
    (∃ rest : String,
      ((writeResources (fuel + 1) (some [(n, r)]) params schemas s).1).out =
        ((writeResources fuel r.resources params schemas s).1).out ++ rest) ∧
    (∀ cn : String,
      propertyA cn (Sum.inl (getResourceTypeName cn)) true s =
        writeLineA (formatPropertyName cn ++ ": " ++ getResourceTypeName cn ++ ";") s) ∧
    getResourceTypeName "accounts" = "AccountsResource" := by
  have h1 : writeResources (fuel + 1) (some [(n, r)]) params schemas s =
      aseq (writeResources fuel r.resources params schemas)
        (interfaceA (getResourceTypeName n)
          (aseq
            (forEachOrderedA r.methods (fun method _name _i =>
              methodEntryAct fuel params schemas method))
            (forEachOrderedA r.resources (fun _child cn _ =>
              propertyA cn (Sum.inl (getResourceTypeName cn)) true)))) s := by
    rw [writeResources, forEachOrderedA, sortedEntries_singleton, forEachOrderedGo,
      forEachOrderedGo, aseq_skipA_right]
  refine ⟨h1, ?_, ?_, by decide⟩
  · rw [h1]
    have hiface : OutExt (interfaceA (getResourceTypeName n)
        (aseq
          (forEachOrderedA r.methods (fun method _name _i =>
            methodEntryAct fuel params schemas method))
          (forEachOrderedA r.resources (fun _child cn _ =>
            propertyA cn (Sum.inl (getResourceTypeName cn)) true)))) := by
      apply outExt_interfaceA
      apply outExt_aseq
      · exact outExt_forEachOrderedA _ _ (fun m nm j => outExt_methodEntryAct fuel params schemas m)
      · exact outExt_forEachOrderedA _ _
          (fun c cn j => outExt_propertyA cn true (fun cb3 hcb3 => Sum.noConfusion hcb3))
    rcases hc : writeResources fuel r.resources params schemas s with ⟨s1, e1⟩
    cases e1 with
    | none =>
      have hstep : aseq (writeResources fuel r.resources params schemas)
          (interfaceA (getResourceTypeName n)
            (aseq
              (forEachOrderedA r.methods (fun method _name _i =>
                methodEntryAct fuel params schemas method))
              (forEachOrderedA r.resources (fun _child cn _ =>
                propertyA cn (Sum.inl (getResourceTypeName cn)) true)))) s =
          interfaceA (getResourceTypeName n)
            (aseq
              (forEachOrderedA r.methods (fun method _name _i =>
                methodEntryAct fuel params schemas method))
              (forEachOrderedA r.resources (fun _child cn _ =>
                propertyA cn (Sum.inl (getResourceTypeName cn)) true))) s1 := by
        rw [aseq, hc]
      rw [hstep]
      rcases hiface s1 with ⟨t, ht⟩
      exact ⟨t, ht⟩
    | some e =>
      have hstep : aseq (writeResources fuel r.resources params schemas)
          (interfaceA (getResourceTypeName n)
            (aseq
              (forEachOrderedA r.methods (fun method _name _i =>
                methodEntryAct fuel params schemas method))
              (forEachOrderedA r.resources (fun _child cn _ =>
                propertyA cn (Sum.inl (getResourceTypeName cn)) true)))) s = (s1, some e) := by
        rw [aseq, hc]
      rw [hstep]
      exact ⟨"", (String.append_empty _).symm⟩
  · intro cn
    have hemp : formatPropertyName cn ++ "" = formatPropertyName cn := String.append_empty _
    simp [propertyA, hemp]

/-! ## The emitters depend on the schema table only through lookups (claim C7) -/

theorem getType_ext : ∀ (fuel : Nat) (t : JsonSchema) (ss1 ss2 : List (String × JsonSchema)),
    (∀ k, recLookup k ss1 = recLookup k ss2) →
    getType fuel t (some ss1) = getType fuel t (some ss2) := by
  intro fuel
  induction fuel with
  | zero => intro t ss1 ss2 _; rw [getType, getType]
  | succ n ih =>
    intro t ss1 ss2 h
    have ihss : ∀ t2, getType n t2 (some ss1) = getType n t2 (some ss2) :=
      fun t2 => ih t2 ss1 ss2 h
    rw [getType, getType]
    simp only [ihss, h]

theorem getMethodReturn_ext (method : RestMethod) (ss1 ss2 : List (String × JsonSchema))
    (h : ∀ k, recLookup k ss1 = recLookup k ss2) :
    getMethodReturn method (some ss1) = getMethodReturn method (some ss2) := by
  rw [getMethodReturn, getMethodReturn]
  simp only [h]

theorem requestParamCb_ext (fuel : Nat) (parameters : List (String × JsonSchema))
    (method : RestMethod) (ss1 ss2 : List (String × JsonSchema))
    (h : ∀ k, recLookup k ss1 = recLookup k ss2) :
    requestParamCb fuel parameters (some ss1) method =
      requestParamCb fuel parameters (some ss2) method := by
  have ihss : ∀ t2, getType fuel t2 (some ss1) = getType fuel t2 (some ss2) :=
    fun t2 => getType_ext fuel t2 ss1 ss2 h
  rw [requestParamCb, requestParamCb]
  simp only [ihss]

theorem methodTail_ext (fuel : Nat) (parameters : List (String × JsonSchema))
    (method : RestMethod) (requestBody : List (String × StrOrCb))
    (ss1 ss2 : List (String × JsonSchema))
    (h : ∀ k, recLookup k ss1 = recLookup k ss2) :
    methodTail fuel parameters (some ss1) method requestBody =
      methodTail fuel parameters (some ss2) method requestBody := by
  unfold methodTail
  simp only [getMethodReturn_ext method ss1 ss2 h,
    requestParamCb_ext fuel parameters method ss1 ss2 h]

theorem methodEntryAct_ext (fuel : Nat) (parameters : List (String × JsonSchema))
    (method : RestMethod) (ss1 ss2 : List (String × JsonSchema))
    (h : ∀ k, recLookup k ss1 = recLookup k ss2) :
    methodEntryAct fuel parameters (some ss1) method =
      methodEntryAct fuel parameters (some ss2) method := by
  unfold methodEntryAct
  simp only [h, methodTail_ext fuel parameters method _ ss1 ss2 h]

theorem writeResources_ext : ∀ (fuel : Nat)
    (resources : Option (List (String × RestResource)))
    (parameters : List (String × JsonSchema))
    (ss1 ss2 : List (String × JsonSchema)),
    (∀ k, recLookup k ss1 = recLookup k ss2) →
    writeResources fuel resources parameters (some ss1) =
      writeResources fuel resources parameters (some ss2) := by
  intro fuel
  induction fuel with
  | zero => intro resources parameters ss1 ss2 _; rw [writeResources, writeResources]
  | succ n ih =>
    intro resources parameters ss1 ss2 h
    have ihwr : ∀ res2 params2, writeResources n res2 params2 (some ss1) =
        writeResources n res2 params2 (some ss2) :=
      fun res2 params2 => ih res2 params2 ss1 ss2 h
    rw [writeResources, writeResources]
    simp only [ihwr, methodEntryAct_ext n parameters _ ss1 ss2 h]

theorem schemaInterfacesAct_ext (fuel : Nat) (api api2 : RestDescription)
    (hsch : recPermNodup api.schemas api2.schemas) :
    schemaInterfacesAct fuel api = schemaInterfacesAct fuel api2 := by
  unfold schemaInterfacesAct
  rcases hx : api.schemas with _ | x <;> rcases hy : api2.schemas with _ | y <;>
    rw [hx, hy] at hsch
  case none.some => exact hsch.elim
  case some.none => exact hsch.elim
  case some.some =>
    obtain ⟨hperm, hnd⟩ := hsch
    have hlk : ∀ k, recLookup k x = recLookup k y := recLookup_perm hperm hnd
    have ihss : ∀ t2, getType fuel t2 (some x) = getType fuel t2 (some y) :=
      fun t2 => getType_ext fuel t2 x y hlk
    rw [forEachOrderedA, forEachOrderedA, sortedEntries_eq_of_perm x y hperm hnd]
    simp only [ihss]

theorem constResourcesAct_ext (api api2 : RestDescription)
    (hres : recPermNodup api.resources api2.resources) :
    constResourcesAct api = constResourcesAct api2 := by
  unfold constResourcesAct
  rcases hx : api.resources with _ | x <;> rcases hy : api2.resources with _ | y <;>
    rw [hx, hy] at hres
  case none.some => exact hres.elim
  case some.none => exact hres.elim
  case some.some =>
    obtain ⟨hperm, hnd⟩ := hres
    rw [forEachOrderedA, forEachOrderedA, sortedEntries_eq_of_perm x y hperm hnd]

theorem writeResources_resources_perm (fuel : Nat)
    (x y : List (String × RestResource)) (hperm : x.Perm y) (hnd : (recKeys x).Nodup)
    (parameters : List (String × JsonSchema))
    (schemas : Option (List (String × JsonSchema))) :
    writeResources fuel (some x) parameters schemas =
      writeResources fuel (some y) parameters schemas := by
  rcases fuel with _ | n
  · rw [writeResources, writeResources]
  · rw [writeResources, writeResources, forEachOrderedA, forEachOrderedA,
      sortedEntries_eq_of_perm x y hperm hnd]

/-- C7: declaration-file generation is deterministic.  Running `processApi`
twice on the same input from the same initial state gives byte-identical
results (first conjunct), and more strongly the output is byte-identical
for any reordering of the entries of the `schemas` and `resources`
records: it depends only on the record contents, never on the insertion
order of the input mapping (second conjunct). -/
theorem c7_determinism (fuel : Nat) (url : String) (api api2 : RestDescription)
    (h : apiEquiv api api2) :
    processApiOut fuel api url = processApiOut fuel api url ∧
    processApiOut fuel api url = processApiOut fuel api2 url := by
  refine ⟨rfl, ?_⟩
  obtain ⟨hname, hver, htitle, howner, hdoc, hparams, hsch, hres⟩ := h
  unfold processApiOut processApi
  rw [hname, hver, htitle, howner, hdoc, hparams,
    schemaInterfacesAct_ext fuel api api2 hsch, constResourcesAct_ext api api2 hres]
  have hstep1 : writeResources fuel api.resources (api2.parameters.getD []) api.schemas =
      writeResources fuel api.resources (api2.parameters.getD []) api2.schemas := by
    rcases hx : api.schemas with _ | sx <;> rcases hy : api2.schemas with _ | sy <;>
      rw [hx, hy] at hsch
    case none.some => exact hsch.elim
    case some.none => exact hsch.elim
    case some.some =>
      obtain ⟨hperm, hnd⟩ := hsch
      exact writeResources_ext fuel _ _ sx sy (recLookup_perm hperm hnd)
  have hstep2 : writeResources fuel api.resources (api2.parameters.getD []) api2.schemas =
      writeResources fuel api2.resources (api2.parameters.getD []) api2.schemas := by
    rcases hx : api.resources with _ | rx <;> rcases hy : api2.resources with _ | ry <;>
      rw [hx, hy] at hres
    case none.some => exact hres.elim
    case some.none => exact hres.elim
    case some.some =>
      obtain ⟨hperm, hnd⟩ := hres
      exact writeResources_resources_perm fuel rx ry hperm hnd _ _
  rw [hstep1, hstep2]

/-- Witness for C7: a two-schema API document and the same document with
the `schemas` record reversed are `apiEquiv`, and the generated
declaration files are byte-identical. -/
theorem c7_witness :
    apiEquiv
      (RestDescription.mk "a" "v1" "t" "o" "d"
        (some [("A", JsonSchema.mk (some "object") none
            (some [("p", JsonSchema.mk (some "string") none none none none none none none none)])
            none none none none none (some "A")),
          ("B", JsonSchema.mk (some "object") none
            (some [("q", JsonSchema.mk (some "integer") none none none none none none none none)])
            none none none none none (some "B"))]) none none)
      (RestDescription.mk "a" "v1" "t" "o" "d"
        (some [("B", JsonSchema.mk (some "object") none
            (some [("q", JsonSchema.mk (some "integer") none none none none none none none none)])
            none none none none none (some "B")),
          ("A", JsonSchema.mk (some "object") none
            (some [("p", JsonSchema.mk (some "string") none none none none none none none none)])
            none none none none none (some "A"))]) none none) ∧
    processApiOut 3
        (RestDescription.mk "a" "v1" "t" "o" "d"
          (some [("A", JsonSchema.mk (some "object") none
              (some [("p", JsonSchema.mk (some "string") none none none none none none none none)])
              none none none none none (some "A")),
            ("B", JsonSchema.mk (some "object") none
              (some [("q", JsonSchema.mk (some "integer") none none none none none none none none)])
              none none none none none (some "B"))]) none none) "u" =
      processApiOut 3
        (RestDescription.mk "a" "v1" "t" "o" "d"
          (some [("B", JsonSchema.mk (some "object") none
              (some [("q", JsonSchema.mk (some "integer") none none none none none none none none)])
              none none none none none (some "B")),
            ("A", JsonSchema.mk (some "object") none
              (some [("p", JsonSchema.mk (some "string") none none none none none none none none)])
              none none none none none (some "A"))]) none none) "u" := by
  have he : apiEquiv
      (RestDescription.mk "a" "v1" "t" "o" "d"
        (some [("A", JsonSchema.mk (some "object") none
            (some [("p", JsonSchema.mk (some "string") none none none none none none none none)])
            none none none none none (some "A")),
          ("B", JsonSchema.mk (some "object") none
            (some [("q", JsonSchema.mk (some "integer") none none none none none none none none)])
            none none none none none (some "B"))]) none none)
      (RestDescription.mk "a" "v1" "t" "o" "d"
        (some [("B", JsonSchema.mk (some "object") none
            (some [("q", JsonSchema.mk (some "integer") none none none none none none none none)])
            none none none none none (some "B")),
          ("A", JsonSchema.mk (some "object") none
            (some [("p", JsonSchema.mk (some "string") none none none none none none none none)])
            none none none none none (some "A"))]) none none) :=
    ⟨rfl, rfl, rfl, rfl, rfl, rfl, ⟨List.Perm.swap _ _ _, by decide⟩, trivial⟩
  exact ⟨he, (c7_determinism 3 "u" _ _ he).2⟩
